import Mathlib

/-!
# opencost: Range container, AuditSet merge and network cost join

A shallow embedding of `pkg/kubecost/range.go`, `pkg/kubecost/audit.go` and
`costmodel/networkcosts.go`.

Conventions of the embedding:

* a Go slice is a `List`; the nil slice and the empty slice are both `[]`
  (Go gives both length 0 and ranges over both without iterating);
* a Go `(value, error)` result is a pair whose second component is
  `Option GoError`, `none` standing for a nil error;
* a pointer receiver that the source tests against nil is an `Option`;
* `float64` arithmetic is kept abstract: the code is embedded over any type
  `F` carrying `0`, `+` and `*`, so every theorem holds in particular for
  IEEE-754 doubles, and concrete examples are evaluated over `ℚ`;
* a Go `map[string]V` is an association list with pairwise distinct keys
  (`GoMap`), assignment to a key replacing in place or appending;
* the mutexes are not modelled: every theorem is about sequential calls;
* where sharing between a clone and its original matters, the objects reached
  from an `*AuditSet` are laid out on a heap (`Heap`, `AuditSet.CloneAt`), and
  the content of an AuditSet is read back from the heap (`Heap.readAuditSet`).
-/

/-- Go's `error` values, represented by their message. -/
abbrev GoError := String

/-! ## Go maps with string keys -/

/-- A Go `map[string]V`: association list, keys kept pairwise distinct by `GoMap.set`. -/
abbrev GoMap (V : Type) := List (String × V)

namespace GoMap

/-- The read `m[k]` with its presence flag. -/
def get {V : Type} (m : GoMap V) (k : String) : Option V :=
  match m with
  | [] => none
  | (k', v) :: rest => if k' = k then some v else get rest k

/-- The assignment `m[k] = v`. -/
def set {V : Type} (m : GoMap V) (k : String) (v : V) : GoMap V :=
  match m with
  | [] => [(k, v)]
  | (k', v') :: rest => if k' = k then (k, v) :: rest else (k', v') :: set rest k v

/-- The key set of the map, in storage order. -/
def keys {V : Type} (m : GoMap V) : List String := m.map Prod.fst

end GoMap

namespace kubecost

/-! ## `range.go` -/

/-- The capability contract `Set` of `set.go`, restricted to the method `Range` calls. -/
class Set (T : Type) where
  /-- The method `IsEmpty() bool`. -/
  IsEmpty : T → Bool

/-- The struct `Range[T Set]`: the slice `sets` (the lock is not modelled). -/
structure Range (T : Type) where
  /-- The field `sets []T`. -/
  sets : List T
  deriving Repr, DecidableEq

namespace Range

/-- The zero value `Range[T]{}`: a freshly constructed Range. -/
def empty {T : Type} : Range T := ⟨[]⟩

/-- The method `Append`: `r.sets = append(r.sets, that)`. -/
def Append {T : Type} (r : Range T) (that : T) : Range T :=
  ⟨r.sets ++ [that]⟩

/-- The method `Get`: index check, then `r.sets[i]`. -/
def Get {T : Type} [Inhabited T] (r : Range T) (i : Int) : T × Option GoError :=
  if i < 0 ∨ i ≥ (r.sets.length : Int) then
    (default, some ("range: index out of range: " ++ toString i))
  else
    (r.sets.getD i.toNat default, none)

/-- The method `Length`, with its nil receiver check. -/
def Length {T : Type} (r : Option (Range T)) : Int :=
  match r with
  | none => 0
  | some r => if r.sets.isEmpty then 0 else (r.sets.length : Int)

/-- The loop of `IsEmpty`: false at the first Set that is not empty. -/
def IsEmpty.loop {T : Type} [Set T] : List T → Bool
  | [] => true
  | set :: rest => if !(Set.IsEmpty set) then false else IsEmpty.loop rest

/-- The method `IsEmpty`, with its nil receiver check. -/
def IsEmpty {T : Type} [Set T] (r : Option (Range T)) : Bool :=
  match r with
  | none => true
  | some r' => if Length r = 0 then true else IsEmpty.loop r'.sets

end Range

/-! ## `audit.go` -/

/-- The string type `AuditStatus`. -/
abbrev AuditStatus := String

/-- The struct `AuditFloatResult`. -/
structure AuditFloatResult (F : Type) where
  /-- The field `Expected float64`. -/
  Expected : F
  /-- The field `Actual float64`. -/
  Actual : F
  deriving Repr, DecidableEq

/-- Modelled from the spec: the external `Window`, an interval `{start, end}`
whose bounds are instants counted as integers; either bound may be unset. -/
structure Window where
  /-- The lower bound of the interval. -/
  start : Option Int
  /-- The upper bound of the interval. -/
  stop : Option Int
  deriving Repr, DecidableEq

/-- The struct `AllocationReconciliationAudit`; `time.Time` is an integer instant. -/
structure AllocationReconciliationAudit (F : Type) where
  /-- The field `Status AuditStatus`. -/
  Status : AuditStatus
  /-- The field `Description string`. -/
  Description : String
  /-- The field `LastRun time.Time`. -/
  LastRun : Int
  /-- The field `Resources map[string]map[string]*AuditFloatResult`. -/
  Resources : GoMap (GoMap (AuditFloatResult F))
  /-- The field `AllocsBlankNode []string`. -/
  AllocsBlankNode : List String
  /-- The field `NodesWithNoAllocs []string`. -/
  NodesWithNoAllocs : List String
  /-- The field `MissingNodes []string`. -/
  MissingNodes : List String
  deriving Repr, DecidableEq

/-- The struct `AuditSet`; the pointer field is an `Option` (the lock is not modelled). -/
structure AuditSet (F : Type) where
  /-- The field `AllocationReconciliation *AllocationReconciliationAudit`. -/
  AllocationReconciliation : Option (AllocationReconciliationAudit F)
  /-- The field `Window Window`. -/
  Window : Window
  deriving Repr, DecidableEq

/-- What a call on `*AuditSet` pointers does: it returns a value, or the
runtime stops it with a nil pointer dereference. -/
inductive Outcome (α : Type) where
  /-- The call returned this value. -/
  | returned : α → Outcome α
  /-- The call dereferenced a nil pointer. -/
  | nilDereference : Outcome α
  deriving Repr, DecidableEq

namespace AuditSet

/-- The method `UpdateAuditSet`: a nil receiver returns `that`; otherwise
`that.AllocationReconciliation` is read (through the pointer `that`) and, when
not nil, stored in the receiver, which is returned. -/
def UpdateAuditSet {F : Type} (as : Option (AuditSet F)) (that : Option (AuditSet F)) :
    Outcome (Option (AuditSet F)) :=
  match as with
  | none => .returned that
  | some as' =>
    match that with
    | none => .nilDereference
    | some that' =>
      if that'.AllocationReconciliation.isSome then
        .returned (some { as' with AllocationReconciliation := that'.AllocationReconciliation })
      else
        .returned (some as')

/-- The method `IsEmpty`: `as == nil || as.AllocationReconciliation == nil`. -/
def IsEmpty {F : Type} (as : Option (AuditSet F)) : Bool :=
  match as with
  | none => true
  | some as' => as'.AllocationReconciliation.isNone

end AuditSet

/-- The pointer type `*AuditSet` satisfies `Set` through `AuditSet.IsEmpty`. -/
instance instSetAuditSet {F : Type} : Set (Option (AuditSet F)) where
  IsEmpty := AuditSet.IsEmpty

/-- An audit that failed. -/
def exampleFailed : AllocationReconciliationAudit ℚ :=
  { Status := "Failed", Description := "cpu differs", LastRun := 10,
    Resources := [("node1", [("cpu", { Expected := 4, Actual := 3 })])],
    AllocsBlankNode := [], NodesWithNoAllocs := ["node2"], MissingNodes := [] }

/-- An audit that passed. -/
def examplePassed : AllocationReconciliationAudit ℚ :=
  { Status := "Passed", Description := "", LastRun := 20,
    Resources := [("node1", [("cpu", { Expected := 4, Actual := 4 })])],
    AllocsBlankNode := [], NodesWithNoAllocs := [], MissingNodes := [] }

/-- A receiver holding the failed audit, with window `[0, 10)`. -/
def exampleReceiver : AuditSet ℚ :=
  { AllocationReconciliation := some exampleFailed, Window := ⟨some 0, some 10⟩ }

/-- An incoming set holding the passed audit, with window `[20, 30)`. -/
def exampleIncoming : AuditSet ℚ :=
  { AllocationReconciliation := some examplePassed, Window := ⟨some 20, some 30⟩ }

/-- An incoming set with no audit, with window `[20, 30)`. -/
def exampleBlank : AuditSet ℚ :=
  { AllocationReconciliation := none, Window := ⟨some 20, some 30⟩ }

/-- The string type `AuditType`. -/
abbrev AuditType := String

/-- The constant `AuditAllocationReconciliation`. -/
def AuditAllocationReconciliation : AuditType := "AuditAllocationReconciliation"

/-- The constant `AuditAll`. -/
def AuditAll : AuditType := ""

/-- The constant `AuditInvalidType`. -/
def AuditInvalidType : AuditType := "InvalidType"

/-- The function `ToAuditType`: a switch on the string. -/
def ToAuditType (check : String) : AuditType :=
  if check = AuditAllocationReconciliation then AuditAllocationReconciliation
  else if check = AuditAll then AuditAll
  else AuditInvalidType

/-- The method `AuditFloatResult.Clone`. -/
def AuditFloatResult.Clone {F : Type} (afr : AuditFloatResult F) : AuditFloatResult F :=
  { Expected := afr.Expected, Actual := afr.Actual }

/-- Modelled from the spec: `slices.Clone` (library code) returns a copy of the slice. -/
def slicesClone {α : Type} (s : List α) : List α :=
  s.foldl (fun copy x => copy ++ [x]) []

/-- Modelled from the spec: `Window.Clone` (declared outside these files) copies the interval. -/
def Window.Clone (w : Window) : Window :=
  { start := w.start, stop := w.stop }

/-- Modelled from the spec: the bound of a union on one side, `pick` choosing
between two set bounds; an unset bound is taken from the other window. -/
def Window.unionBound (pick : Int → Int → Int) (a b : Option Int) : Option Int :=
  match a, b with
  | some x, some y => some (pick x y)
  | some x, none => some x
  | none, b => b

/-- Modelled from the spec: `Window.Expand` (declared outside these files)
makes the receiver the union of the two intervals, their enclosing span: the
earlier start and the later end. The zero Window, with no bound set, is
neutral, as the coverage of a fresh `AuditCoverage` requires. -/
def Window.Expand (w that : Window) : Window :=
  { start := Window.unionBound min w.start that.start,
    stop := Window.unionBound max w.stop that.stop }

/-- The struct `AuditCoverage` (the lock is not modelled). -/
structure AuditCoverage where
  /-- The field `AllocationReconciliation Window`. -/
  AllocationReconciliation : Window
  deriving Repr, DecidableEq

/-- The function `NewAuditCoverage`: the zero value. -/
def NewAuditCoverage : AuditCoverage := { AllocationReconciliation := ⟨none, none⟩ }

/-- The method `AuditCoverage.Update`: when the set and its audit are not nil,
the coverage Window is expanded, in place, by the Window of the set. -/
def AuditCoverage.Update {F : Type} (ac : AuditCoverage) (as : Option (AuditSet F)) :
    AuditCoverage :=
  match as with
  | none => ac
  | some as' =>
    if as'.AllocationReconciliation.isSome then
      { ac with AllocationReconciliation := ac.AllocationReconciliation.Expand as'.Window }
    else ac

/-- The inner loop of `AllocationReconciliationAudit.Clone`: the copy of one resource map. -/
def AllocationReconciliationAudit.Clone.copyResourceMap {F : Type}
    (resourceMap : GoMap (AuditFloatResult F)) : GoMap (AuditFloatResult F) :=
  resourceMap.foldl (fun copyResourceMap rv => copyResourceMap.set rv.1 rv.2.Clone) []

/-- The method `AllocationReconciliationAudit.Clone`. It has no nil check: the
first statement reads `ara.Resources` through the receiver. -/
def AllocationReconciliationAudit.Clone {F : Type}
    (ara : Option (AllocationReconciliationAudit F)) :
    Outcome (Option (AllocationReconciliationAudit F)) :=
  match ara with
  | none => .nilDereference
  | some ara' =>
    let resources : GoMap (GoMap (AuditFloatResult F)) :=
      ara'.Resources.foldl
        (fun resources nr =>
          resources.set nr.1 (AllocationReconciliationAudit.Clone.copyResourceMap nr.2)) []
    .returned (some
      { Status := ara'.Status, Description := ara'.Description, LastRun := ara'.LastRun,
        Resources := resources,
        AllocsBlankNode := slicesClone ara'.AllocsBlankNode,
        NodesWithNoAllocs := slicesClone ara'.NodesWithNoAllocs,
        MissingNodes := slicesClone ara'.MissingNodes })

/-- The method `AuditSet.Clone`: nil for a nil receiver; otherwise a new
AuditSet from `as.AllocationReconciliation.Clone()` and `as.Window.Clone()`. -/
def AuditSet.Clone {F : Type} (as : Option (AuditSet F)) : Outcome (Option (AuditSet F)) :=
  match as with
  | none => .returned none
  | some as' =>
    match AllocationReconciliationAudit.Clone as'.AllocationReconciliation with
    | .nilDereference => .nilDereference
    | .returned ara => .returned (some { AllocationReconciliation := ara,
                                         Window := as'.Window.Clone })

/-- The association lists of the audit stand for Go maps: the node keys are
pairwise distinct, and so are the resource keys of every node. -/
def AllocationReconciliationAudit.KeysDistinct {F : Type}
    (ara : AllocationReconciliationAudit F) : Prop :=
  ara.Resources.keys.Nodup ∧ ∀ nr ∈ ara.Resources, nr.2.keys.Nodup

/-- The function `NewAuditSet`, from the two instants of its window. -/
def NewAuditSet {F : Type} (start stop : Int) : AuditSet F :=
  { AllocationReconciliation := none, Window := ⟨some start, some stop⟩ }

/-! ## References: `Clone` on a heap of objects

To state that a clone shares no mutable object with its original, the structs,
maps and slice arrays reached from an `*AuditSet` are laid out as objects of a
heap, a reference being the address of an object, or nil. -/

/-- The objects reached from an `*AuditSet`. The address of an object is a
natural number; a reference is an `Option Nat`, `none` for nil. -/
inductive Obj (F : Type) where
  /-- An `AuditSet` struct. -/
  | auditSet (allocationReconciliation : Option Nat) (window : Window)
  /-- An `AllocationReconciliationAudit` struct; the map and the three slices are references. -/
  | audit (status : AuditStatus) (description : String) (lastRun : Int)
      (resources allocsBlankNode nodesWithNoAllocs missingNodes : Option Nat)
  /-- A `map[string]map[string]*AuditFloatResult`: node to reference of a resource map. -/
  | nodeMap (entries : GoMap (Option Nat))
  /-- A `map[string]*AuditFloatResult`: resource name to pointer. -/
  | resourceMap (entries : GoMap (Option Nat))
  /-- An `AuditFloatResult` struct. -/
  | floatResult (result : AuditFloatResult F)
  /-- The array of a `[]string`. -/
  | strings (elements : List String)

/-- The heap: the object at address `a` is the `a`-th of the list; an
allocation appends an object, a write replaces one. -/
abbrev Heap (F : Type) := List (Obj F)

/-- The write of an object at an address of the heap. -/
abbrev Heap.write {F : Type} (h : Heap F) (a : Nat) (o : Obj F) : Heap F := List.set h a o

/-- Sequencing of calls that may stop with a nil dereference. -/
def Outcome.bind {α β : Type} (x : Outcome α) (f : α → Outcome β) : Outcome β :=
  match x with
  | .returned a => f a
  | .nilDereference => .nilDereference

/-- The method `AuditFloatResult.Clone` on the heap: a new struct with the two
fields read through the receiver. A pointer that is nil, or (which Go's typing
excludes) does not point to an `AuditFloatResult`, stops the call. -/
def AuditFloatResult.CloneAt {F : Type} (h : Heap F) (afr : Option Nat) :
    Outcome (Option Nat × Heap F) :=
  match afr with
  | none => .nilDereference
  | some a =>
    match h[a]? with
    | some (.floatResult r) =>
      .returned (some h.length, h ++ [.floatResult { Expected := r.Expected, Actual := r.Actual }])
    | _ => .nilDereference

/-- Modelled from the spec: `slices.Clone` (library code) on the heap: nil for
a nil slice, otherwise a slice on a new array with the same elements. -/
def slicesCloneAt {F : Type} (h : Heap F) (s : Option Nat) : Outcome (Option Nat × Heap F) :=
  match s with
  | none => .returned (none, h)
  | some a =>
    match h[a]? with
    | some (.strings xs) => .returned (some h.length, h ++ [.strings xs])
    | _ => .nilDereference

/-- The entries of a map given by its reference; a nil map has none. -/
def Heap.resourceEntries {F : Type} (h : Heap F) (m : Option Nat) :
    Option (GoMap (Option Nat)) :=
  match m with
  | none => some []
  | some a =>
    match h[a]? with
    | some (.resourceMap es) => some es
    | _ => none

/-- The entries of a node map given by its reference; a nil map has none. -/
def Heap.nodeEntries {F : Type} (h : Heap F) (m : Option Nat) :
    Option (GoMap (Option Nat)) :=
  match m with
  | none => some []
  | some a =>
    match h[a]? with
    | some (.nodeMap es) => some es
    | _ => none

/-- The inner loop of `AllocationReconciliationAudit.Clone` on the heap, over
the entries still to visit: `copyResourceMap[resourceName] = val.Clone()`
writes the map object at `copyResourceMap`. -/
def AllocationReconciliationAudit.CloneAt.copyLoop {F : Type} (copyResourceMap : Nat) :
    GoMap (Option Nat) → Heap F → Outcome (Heap F)
  | [], h => .returned h
  | (resourceName, val) :: rest, h =>
    (AuditFloatResult.CloneAt h val).bind fun qh =>
      match qh.2[copyResourceMap]? with
      | some (.resourceMap es) =>
        AllocationReconciliationAudit.CloneAt.copyLoop copyResourceMap rest
          (qh.2.set copyResourceMap (.resourceMap (es.set resourceName qh.1)))
      | _ => .nilDereference

/-- The outer loop of `AllocationReconciliationAudit.Clone` on the heap, over
the entries still to visit: a new map is made for the node, filled by the inner
loop and stored by `resources[node] = copyResourceMap`. -/
def AllocationReconciliationAudit.CloneAt.nodeLoop {F : Type} (resources : Nat) :
    GoMap (Option Nat) → Heap F → Outcome (Heap F)
  | [], h => .returned h
  | (node, resourceMap) :: rest, h =>
    match h.resourceEntries resourceMap with
    | none => .nilDereference
    | some es =>
      (AllocationReconciliationAudit.CloneAt.copyLoop h.length es (h ++ [.resourceMap []])).bind
        fun h2 =>
          match h2[resources]? with
          | some (.nodeMap ns) =>
            AllocationReconciliationAudit.CloneAt.nodeLoop resources rest
              (h2.set resources (.nodeMap (ns.set node (some h.length))))
          | _ => .nilDereference

/-- The method `AllocationReconciliationAudit.Clone` on the heap. -/
def AllocationReconciliationAudit.CloneAt {F : Type} (h : Heap F) (ara : Option Nat) :
    Outcome (Option Nat × Heap F) :=
  match ara with
  | none => .nilDereference
  | some a =>
    match h[a]? with
    | some (.audit status description lastRun resources allocs nodes missing) =>
      match h.nodeEntries resources with
      | none => .nilDereference
      | some ns =>
        (AllocationReconciliationAudit.CloneAt.nodeLoop h.length ns (h ++ [.nodeMap []])).bind
          fun h1 =>
            (slicesCloneAt h1 allocs).bind fun ah =>
              (slicesCloneAt ah.2 nodes).bind fun nh =>
                (slicesCloneAt nh.2 missing).bind fun mh =>
                  .returned (some mh.2.length,
                    mh.2 ++ [.audit status description lastRun (some h.length) ah.1 nh.1 mh.1])
    | _ => .nilDereference

/-- The method `AuditSet.Clone` on the heap. -/
def AuditSet.CloneAt {F : Type} (h : Heap F) (as : Option Nat) :
    Outcome (Option Nat × Heap F) :=
  match as with
  | none => .returned (none, h)
  | some a =>
    match h[a]? with
    | some (.auditSet allocationReconciliation window) =>
      (AllocationReconciliationAudit.CloneAt h allocationReconciliation).bind fun qh =>
        .returned (some qh.2.length, qh.2 ++ [.auditSet qh.1 window.Clone])
    | _ => .nilDereference

/-- The content of the entries of a map and the addresses read for it, each
value read by `read`. -/
def readEntries {V : Type} (read : Option Nat → Option (V × List Nat)) :
    GoMap (Option Nat) → Option (GoMap V × List Nat)
  | [] => some ([], [])
  | (k, p) :: rest =>
    match read p, readEntries read rest with
    | some va, some vb => some ((k, va.1) :: vb.1, va.2 ++ vb.2)
    | _, _ => none

/-- The content a `*AuditFloatResult` points to, and the address read. -/
def Heap.readFloat {F : Type} (h : Heap F) (p : Option Nat) :
    Option (AuditFloatResult F × List Nat) :=
  match p with
  | none => none
  | some a =>
    match h[a]? with
    | some (.floatResult r) => some (r, [a])
    | _ => none

/-- The content of a resource map (empty for nil), and the addresses read. -/
def Heap.readResourceMap {F : Type} (h : Heap F) (p : Option Nat) :
    Option (GoMap (AuditFloatResult F) × List Nat) :=
  match p with
  | none => some ([], [])
  | some a =>
    match h[a]? with
    | some (.resourceMap es) => (readEntries h.readFloat es).map fun va => (va.1, a :: va.2)
    | _ => none

/-- The content of a node map (empty for nil), and the addresses read. -/
def Heap.readNodeMap {F : Type} (h : Heap F) (p : Option Nat) :
    Option (GoMap (GoMap (AuditFloatResult F)) × List Nat) :=
  match p with
  | none => some ([], [])
  | some a =>
    match h[a]? with
    | some (.nodeMap es) => (readEntries h.readResourceMap es).map fun va => (va.1, a :: va.2)
    | _ => none

/-- The content of a `[]string` (empty for nil), and the address read. -/
def Heap.readStrings {F : Type} (h : Heap F) (p : Option Nat) :
    Option (List String × List Nat) :=
  match p with
  | none => some ([], [])
  | some a =>
    match h[a]? with
    | some (.strings xs) => some (xs, [a])
    | _ => none

/-- The content of the audit a `*AllocationReconciliationAudit` points to, and
the addresses read. -/
def Heap.readAudit {F : Type} (h : Heap F) (p : Option Nat) :
    Option (AllocationReconciliationAudit F × List Nat) :=
  match p with
  | none => none
  | some a =>
    match h[a]? with
    | some (.audit status description lastRun resources allocs nodes missing) =>
      match h.readNodeMap resources, h.readStrings allocs, h.readStrings nodes,
        h.readStrings missing with
      | some r, some al, some nn, some mn =>
        some ({ Status := status, Description := description, LastRun := lastRun,
                Resources := r.1, AllocsBlankNode := al.1, NodesWithNoAllocs := nn.1,
                MissingNodes := mn.1 },
              a :: (r.2 ++ al.2 ++ nn.2 ++ mn.2))
      | _, _, _, _ => none
    | _ => none

/-- The content of the AuditSet at an address, with every field down to the
entries of the nested maps and the elements of the anomaly lists, and the
addresses of all the objects read for it. -/
def Heap.readAuditSet {F : Type} (h : Heap F) (a : Nat) :
    Option (AuditSet F × List Nat) :=
  match h[a]? with
  | some (.auditSet allocationReconciliation window) =>
    match allocationReconciliation with
    | none => some ({ AllocationReconciliation := none, Window := window }, [a])
    | some _ =>
      (h.readAudit allocationReconciliation).map fun va =>
        ({ AllocationReconciliation := some va.1, Window := window }, a :: va.2)
  | _ => none

/-- The example receiver laid out on a heap: the AuditSet at address 5. -/
def exampleHeap : Heap ℚ :=
  [ .floatResult { Expected := 4, Actual := 3 },
    .resourceMap [("cpu", some 0)],
    .nodeMap [("node1", some 1)],
    .strings ["node2"],
    .audit "Failed" "cpu differs" 10 (some 2) none (some 3) none,
    .auditSet (some 4) ⟨some 0, some 10⟩ ]

end kubecost

namespace costmodel

/-! ## `networkcosts.go` -/

/-- The sample type `Vector` (declared outside these files): a value and its timestamp. -/
structure Vector (F : Type) where
  /-- The field `Timestamp float64`. -/
  Timestamp : F
  /-- The field `Value float64`. -/
  Value : F
  deriving Repr, DecidableEq

/-- The struct `NetworkUsageData`. -/
structure NetworkUsageData (F : Type) where
  /-- The field `ClusterID string`. -/
  ClusterID : String
  /-- The field `PodName string`. -/
  PodName : String
  /-- The field `Namespace string`. -/
  Namespace : String
  /-- The field `NetworkZoneEgress []*Vector`. -/
  NetworkZoneEgress : List (Vector F)
  /-- The field `NetworkRegionEgress []*Vector`. -/
  NetworkRegionEgress : List (Vector F)
  /-- The field `NetworkInternetEgress []*Vector`. -/
  NetworkInternetEgress : List (Vector F)
  deriving Repr, DecidableEq

/-- The struct `NetworkUsageVector`. -/
structure NetworkUsageVector (F : Type) where
  /-- The field `ClusterID string`. -/
  ClusterID : String
  /-- The field `PodName string`. -/
  PodName : String
  /-- The field `Namespace string`. -/
  Namespace : String
  /-- The field `Values []*Vector`. -/
  Values : List (Vector F)
  deriving Repr, DecidableEq

/-- Modelled from the spec: one row of a query result (`QueryResult`, declared
outside these files). The row answers `GetString(field)` with a string and an
error, as the Go method does, and carries its ordered samples. -/
structure QueryResult (F : Type) where
  /-- The method `GetString(field) (string, error)`. -/
  GetString : String → String × Option GoError
  /-- The field `Values []*Vector`. -/
  Values : List (Vector F)

/-- Modelled from the spec: an opaque query-result handle (`interface{}`), given
by what `NewQueryResults` (declared outside these files) returns for it: the
rows and an error. -/
abbrev QueryHandle (F : Type) := List (QueryResult F) × Option GoError

/-- Modelled from the spec: `NewQueryResults` parses a handle into its rows or fails. -/
def NewQueryResults {F : Type} (qr : QueryHandle F) : List (QueryResult F) × Option GoError := qr

/-- Modelled from the spec: the three per-unit egress rates returned by the pricing lookup. -/
structure Network (F : Type) where
  /-- The rate `ZoneNetworkEgressCost`. -/
  ZoneNetworkEgressCost : F
  /-- The rate `RegionNetworkEgressCost`. -/
  RegionNetworkEgressCost : F
  /-- The rate `InternetNetworkEgressCost`. -/
  InternetNetworkEgressCost : F
  deriving Repr, DecidableEq

/-- Modelled from the spec: a pricing provider, given by what its
`NetworkPricing()` lookup returns: the three rates, or an error. -/
abbrev Provider (F : Type) := Except GoError (Network F)

/-- The function `max(x int, rest ...int) int`. -/
def max (x : Nat) (rest : List Nat) : Nat :=
  rest.foldl (fun curr v => if v > curr then v else curr) x

/-- The body of the row loop of `getNetworkUsage`, over the rows still to read. -/
def getNetworkUsage.loop {F : Type} (defaultClusterID : String) :
    List (QueryResult F) → GoMap (NetworkUsageVector F) →
      GoMap (NetworkUsageVector F) × Option GoError
  | [], ncdmap => (ncdmap, none)
  | val :: rest, ncdmap =>
    let podName := (val.GetString "pod_name").1
    let err := (val.GetString "pod_name").2
    if err.isSome then ([], err) else
    let ns := (val.GetString "namespace").1
    let err := (val.GetString "namespace").2
    if err.isSome then ([], err) else
    let clusterID := (val.GetString "cluster_id").1
    let clusterID := if clusterID = "" then defaultClusterID else clusterID
    let key := ns ++ "," ++ podName ++ "," ++ clusterID
    getNetworkUsage.loop defaultClusterID rest
      (ncdmap.set key
        { ClusterID := clusterID, Namespace := ns, PodName := podName, Values := val.Values })

/-- The function `getNetworkUsage`. -/
def getNetworkUsage {F : Type} (qr : QueryHandle F) (defaultClusterID : String) :
    GoMap (NetworkUsageVector F) × Option GoError :=
  let result := (NewQueryResults qr).1
  let err := (NewQueryResults qr).2
  if err.isSome then ([], err) else
  getNetworkUsage.loop defaultClusterID result []

/-- The body of the loop over `zoneNetworkMap` in `GetNetworkUsageData`. -/
def GetNetworkUsageData.zoneStep {F : Type} (usageData : GoMap (NetworkUsageData F))
    (kv : String × NetworkUsageVector F) : GoMap (NetworkUsageData F) :=
  match usageData.get kv.1 with
  | none =>
    usageData.set kv.1
      { ClusterID := kv.2.ClusterID, PodName := kv.2.PodName, Namespace := kv.2.Namespace,
        NetworkZoneEgress := kv.2.Values, NetworkRegionEgress := [],
        NetworkInternetEgress := [] }
  | some existing => usageData.set kv.1 { existing with NetworkZoneEgress := kv.2.Values }

/-- The body of the loop over `regionNetworkMap` in `GetNetworkUsageData`. -/
def GetNetworkUsageData.regionStep {F : Type} (usageData : GoMap (NetworkUsageData F))
    (kv : String × NetworkUsageVector F) : GoMap (NetworkUsageData F) :=
  match usageData.get kv.1 with
  | none =>
    usageData.set kv.1
      { ClusterID := kv.2.ClusterID, PodName := kv.2.PodName, Namespace := kv.2.Namespace,
        NetworkZoneEgress := [], NetworkRegionEgress := kv.2.Values,
        NetworkInternetEgress := [] }
  | some existing => usageData.set kv.1 { existing with NetworkRegionEgress := kv.2.Values }

/-- The body of the loop over `internetNetworkMap` in `GetNetworkUsageData`. -/
def GetNetworkUsageData.internetStep {F : Type} (usageData : GoMap (NetworkUsageData F))
    (kv : String × NetworkUsageVector F) : GoMap (NetworkUsageData F) :=
  match usageData.get kv.1 with
  | none =>
    usageData.set kv.1
      { ClusterID := kv.2.ClusterID, PodName := kv.2.PodName, Namespace := kv.2.Namespace,
        NetworkZoneEgress := [], NetworkRegionEgress := [],
        NetworkInternetEgress := kv.2.Values }
  | some existing => usageData.set kv.1 { existing with NetworkInternetEgress := kv.2.Values }

/-- The three join loops of `GetNetworkUsageData`, in the order zone, region,
internet, each ranging over its map in storage order. -/
def GetNetworkUsageData.join {F : Type}
    (zoneNetworkMap regionNetworkMap internetNetworkMap : GoMap (NetworkUsageVector F)) :
    GoMap (NetworkUsageData F) :=
  let usageData : GoMap (NetworkUsageData F) := []
  let usageData := zoneNetworkMap.foldl GetNetworkUsageData.zoneStep usageData
  let usageData := regionNetworkMap.foldl GetNetworkUsageData.regionStep usageData
  internetNetworkMap.foldl GetNetworkUsageData.internetStep usageData

/-- The function `GetNetworkUsageData`. -/
def GetNetworkUsageData {F : Type} (zr rr ir : QueryHandle F) (defaultClusterID : String) :
    GoMap (NetworkUsageData F) × Option GoError :=
  let zoneNetworkMap := (getNetworkUsage zr defaultClusterID).1
  let err := (getNetworkUsage zr defaultClusterID).2
  if err.isSome then ([], err) else
  let regionNetworkMap := (getNetworkUsage rr defaultClusterID).1
  let err := (getNetworkUsage rr defaultClusterID).2
  if err.isSome then ([], err) else
  let internetNetworkMap := (getNetworkUsage ir defaultClusterID).1
  let err := (getNetworkUsage ir defaultClusterID).2
  if err.isSome then ([], err) else
  (GetNetworkUsageData.join zoneNetworkMap regionNetworkMap internetNetworkMap, none)

/-- The body of the loop of `GetNetworkCost` at index `i`. -/
def GetNetworkCost.body {F : Type} [Zero F] [Add F] [Mul F] (usage : NetworkUsageData F)
    (zoneCost regionCost internetCost : F) (i : Nat) : Vector F :=
  let cost : F := 0
  let timestamp : F := 0
  let ct : F × F :=
    if h : i < usage.NetworkZoneEgress.length then
      (cost + usage.NetworkZoneEgress[i].Value * zoneCost, usage.NetworkZoneEgress[i].Timestamp)
    else (cost, timestamp)
  let ct : F × F :=
    if h : i < usage.NetworkRegionEgress.length then
      (ct.1 + usage.NetworkRegionEgress[i].Value * regionCost,
        usage.NetworkRegionEgress[i].Timestamp)
    else ct
  let ct : F × F :=
    if h : i < usage.NetworkInternetEgress.length then
      (ct.1 + usage.NetworkInternetEgress[i].Value * internetCost,
        usage.NetworkInternetEgress[i].Timestamp)
    else ct
  { Value := ct.1, Timestamp := ct.2 }

/-- The function `GetNetworkCost`; the loop `for i := 0; i < l; i++` appends one
result per index of `List.range l`. -/
def GetNetworkCost {F : Type} [Zero F] [Add F] [Mul F] (usage : NetworkUsageData F)
    (cloud : Provider F) : List (Vector F) × Option GoError :=
  match cloud with
  | .error err => ([], some err)
  | .ok pricing =>
    let zoneCost := pricing.ZoneNetworkEgressCost
    let regionCost := pricing.RegionNetworkEgressCost
    let internetCost := pricing.InternetNetworkEgressCost
    let zlen := usage.NetworkZoneEgress.length
    let rlen := usage.NetworkRegionEgress.length
    let ilen := usage.NetworkInternetEgress.length
    let l := max zlen [rlen, ilen]
    ((List.range l).foldl
      (fun results i =>
        results ++ [GetNetworkCost.body usage zoneCost regionCost internetCost i]) [],
      none)

/-- The contribution of one series at index `i`: `series[i].Value * rate` when
the series has an element at `i`, nothing otherwise. -/
def contribution {F : Type} [Mul F] (series : List (Vector F)) (rate : F) (i : Nat) : List F :=
  (series[i]?).toList.map (fun v => v.Value * rate)

/-- The series of the cost example: zone `[(2, t0)]`, region `[(1, t0), (1, t1)]`,
no internet sample, with `t0 = 100` and `t1 = 160`. -/
def exampleUsage : NetworkUsageData ℚ :=
  { ClusterID := "c1", PodName := "p", Namespace := "a",
    NetworkZoneEgress := [{ Timestamp := 100, Value := 2 }],
    NetworkRegionEgress := [{ Timestamp := 100, Value := 1 }, { Timestamp := 160, Value := 1 }],
    NetworkInternetEgress := [] }

/-- The series of the cost example with the same values and other timestamps. -/
def exampleUsageShifted : NetworkUsageData ℚ :=
  { ClusterID := "c1", PodName := "p", Namespace := "a",
    NetworkZoneEgress := [{ Timestamp := 7, Value := 2 }],
    NetworkRegionEgress := [{ Timestamp := 8, Value := 1 }, { Timestamp := 9, Value := 1 }],
    NetworkInternetEgress := [] }

/-- The rates of the cost example: zone `0.1`, region `0.2`, internet `0.5`. -/
def exampleRates : Network ℚ :=
  { ZoneNetworkEgressCost := 1 / 10, RegionNetworkEgressCost := 2 / 10,
    InternetNetworkEgressCost := 5 / 10 }

/-- The entry the join holds under a key, from what the zone, region and
internet maps hold under it: the identity fields come from the first map, in
that order, that has the key, and each series from its own map. -/
def joinEntry {F : Type} (z r i : Option (NetworkUsageVector F)) : Option (NetworkUsageData F) :=
  match z, r, i with
  | none, none, none => none
  | some z, r, i =>
    some { ClusterID := z.ClusterID, PodName := z.PodName, Namespace := z.Namespace,
           NetworkZoneEgress := z.Values,
           NetworkRegionEgress := (r.map NetworkUsageVector.Values).getD [],
           NetworkInternetEgress := (i.map NetworkUsageVector.Values).getD [] }
  | none, some r, i =>
    some { ClusterID := r.ClusterID, PodName := r.PodName, Namespace := r.Namespace,
           NetworkZoneEgress := [],
           NetworkRegionEgress := r.Values,
           NetworkInternetEgress := (i.map NetworkUsageVector.Values).getD [] }
  | none, none, some i =>
    some { ClusterID := i.ClusterID, PodName := i.PodName, Namespace := i.Namespace,
           NetworkZoneEgress := [], NetworkRegionEgress := [],
           NetworkInternetEgress := i.Values }

/-- The composite key a row is stored under: `namespace,podName,clusterID`, the
cluster id being what `GetString("cluster_id")` returned, or the default when
that is the empty string. -/
def rowKey {F : Type} (defaultClusterID : String) (val : QueryResult F) : String :=
  (val.GetString "namespace").1 ++ "," ++ (val.GetString "pod_name").1 ++ "," ++
    (if (val.GetString "cluster_id").1 = "" then defaultClusterID
     else (val.GetString "cluster_id").1)

/-- The cluster id a row is stored with: what `GetString("cluster_id")`
returned, or the default when that is the empty string. -/
def rowClusterID {F : Type} (defaultClusterID : String) (val : QueryResult F) : String :=
  if (val.GetString "cluster_id").1 = "" then defaultClusterID
  else (val.GetString "cluster_id").1

/-- The `NetworkUsageVector` built from a row: its cluster id (or the default),
namespace, pod name and values. -/
def rowVector {F : Type} (defaultClusterID : String) (val : QueryResult F) :
    NetworkUsageVector F :=
  { ClusterID := rowClusterID defaultClusterID val,
    Namespace := (val.GetString "namespace").1,
    PodName := (val.GetString "pod_name").1,
    Values := val.Values }

/-- The last row, in result order, whose composite key is `k`. -/
def lastWithKey {F : Type} (defaultClusterID : String) :
    List (QueryResult F) → String → Option (QueryResult F)
  | [], _ => none
  | val :: rest, k =>
    match lastWithKey defaultClusterID rest k with
    | some r => some r
    | none => if rowKey defaultClusterID val = k then some val else none

/-- The errors of the required fields of a row, in the order the fields are
read: `pod_name`, then `namespace`. -/
def rowErrors {F : Type} (val : QueryResult F) : List GoError :=
  (val.GetString "pod_name").2.toList ++ (val.GetString "namespace").2.toList

/-- The errors of one source in the order they are met: the parse error alone
when parsing fails, otherwise the errors of the rows in result order. -/
def sourceErrors {F : Type} (qr : QueryHandle F) : List GoError :=
  match (NewQueryResults qr).2 with
  | some err => [err]
  | none => (NewQueryResults qr).1.flatMap rowErrors

/-- The first error met when the sources are processed in the order zone,
region, internet and the rows of each in result order. -/
def firstError {F : Type} (zr rr ir : QueryHandle F) : Option GoError :=
  (sourceErrors zr ++ sourceErrors rr ++ sourceErrors ir).head?

/-- A row built from its three metric labels, each present with a string value
(`some`) or missing (`none`, for which `GetString` returns `""` and an error). -/
def mkRow {F : Type} (podName ns clusterID : Option String) (values : List (Vector F)) :
    QueryResult F :=
  { GetString := fun field =>
      let label :=
        if field = "pod_name" then podName
        else if field = "namespace" then ns
        else if field = "cluster_id" then clusterID
        else none
      match label with
      | some v => (v, none)
      | none => ("", some ("field does not exist in data result vector: " ++ field)),
    Values := values }

/-- Three samples. -/
def samples3 : List (Vector ℚ) :=
  [{ Timestamp := 0, Value := 1 }, { Timestamp := 60, Value := 2 }, { Timestamp := 120, Value := 3 }]

/-- Two samples. -/
def samples2 : List (Vector ℚ) :=
  [{ Timestamp := 0, Value := 4 }, { Timestamp := 60, Value := 5 }]

/-- One sample. -/
def samples1 : List (Vector ℚ) := [{ Timestamp := 0, Value := 6 }]

/-- The zone source of the join example: key `a,p,c1` with 3 samples. -/
def exampleZone : QueryHandle ℚ := ([mkRow (some "p") (some "a") (some "c1") samples3], none)

/-- The region source of the join example: key `a,p,c1` with 2 samples. -/
def exampleRegion : QueryHandle ℚ := ([mkRow (some "p") (some "a") (some "c1") samples2], none)

/-- The internet source of the join example: key `b,q,c1` with 1 sample. -/
def exampleInternet : QueryHandle ℚ := ([mkRow (some "q") (some "b") (some "c1") samples1], none)

/-- A source whose second row has no `namespace` label. -/
def exampleBadSource : QueryHandle ℚ :=
  ([mkRow (some "p") (some "a") (some "c1") samples3, mkRow (some "q") none (some "c1") samples1],
    none)

/-- A source whose only row has no `cluster_id` label. -/
def exampleNoCluster : QueryHandle ℚ := ([mkRow (some "p") (some "a") none samples1], none)

/-- A source with two rows of the same key `a,p,c1`, of 3 samples and of 1 sample. -/
def exampleDuplicate : QueryHandle ℚ :=
  ([mkRow (some "p") (some "a") (some "c1") samples3,
    mkRow (some "p") (some "a") (some "c1") samples1], none)

/-- A source with no row. -/
def exampleNoRows : QueryHandle ℚ := ([], none)

end costmodel

/-! ## Facts about `GoMap` -/

namespace GoMap

theorem get_set_self {V : Type} (m : GoMap V) (k : String) (v : V) :
    (m.set k v).get k = some v := by
  induction m with
  | nil => simp [set, get]
  | cons p rest ih =>
    obtain ⟨k', v'⟩ := p
    by_cases h : k' = k
    · simp [set, get, h]
    · simp [set, get, h, ih]

theorem get_set_ne {V : Type} (m : GoMap V) (k k' : String) (v : V) (hne : k' ≠ k) :
    (m.set k v).get k' = m.get k' := by
  induction m with
  | nil =>
    have h : ¬ k = k' := fun h => hne h.symm
    simp [set, get, h]
  | cons p rest ih =>
    obtain ⟨k0, v0⟩ := p
    by_cases h : k0 = k
    · subst h
      have h' : ¬ k0 = k' := fun h => hne h.symm
      simp [set, get, h']
    · by_cases h2 : k0 = k'
      · subst h2
        simp [set, get, h]
      · simp [set, get, h, h2, ih]

theorem get_isSome_iff {V : Type} (m : GoMap V) (k : String) :
    (m.get k).isSome = true ↔ k ∈ m.keys := by
  induction m with
  | nil => simp [get, keys]
  | cons p rest ih =>
    obtain ⟨k0, v0⟩ := p
    by_cases h : k0 = k
    · simp [get, keys, h]
    · have h' : ¬ k = k0 := fun e => h e.symm
      simpa [get, keys, h, h'] using ih

theorem get_eq_none_iff {V : Type} (m : GoMap V) (k : String) :
    m.get k = none ↔ k ∉ m.keys := by
  rw [← get_isSome_iff]
  cases m.get k <;> simp

theorem keys_set {V : Type} (m : GoMap V) (k : String) (v : V) :
    (m.set k v).keys = if k ∈ m.keys then m.keys else m.keys ++ [k] := by
  induction m with
  | nil => simp [set, keys]
  | cons p rest ih =>
    obtain ⟨k0, v0⟩ := p
    by_cases h : k0 = k
    · simp [set, keys, h]
    · have h' : ¬ k = k0 := fun e => h e.symm
      have ih' := ih
      simp only [keys] at ih'
      by_cases hm : k ∈ List.map Prod.fst rest
      · simp [set, keys, h, h', hm, ih']
      · simp [set, keys, h, h', hm, ih']

theorem nodup_set {V : Type} (m : GoMap V) (k : String) (v : V) (hm : m.keys.Nodup) :
    (m.set k v).keys.Nodup := by
  rw [keys_set]
  split
  · exact hm
  · rename_i hk
    exact List.Nodup.append hm (List.nodup_singleton k) (by simpa using hk)

theorem mem_keys_set {V : Type} (m : GoMap V) (k k' : String) (v : V) :
    k' ∈ (m.set k v).keys ↔ k' = k ∨ k' ∈ m.keys := by
  rw [keys_set]
  split
  · rename_i hk
    constructor
    · intro h; exact Or.inr h
    · rintro (h | h)
      · subst h; exact hk
      · exact h
  · simp [or_comm]

theorem get_eq_some_iff {V : Type} (m : GoMap V) (hm : m.keys.Nodup) (k : String) (v : V) :
    m.get k = some v ↔ (k, v) ∈ m := by
  induction m with
  | nil => simp [get]
  | cons p rest ih =>
    obtain ⟨k0, v0⟩ := p
    have hnd : k0 ∉ keys rest ∧ (keys rest).Nodup := by simpa [keys] using hm
    by_cases h : k0 = k
    · subst h
      have hnot : (k0, v) ∉ rest := by
        intro hin
        exact hnd.1 (List.mem_map.2 ⟨(k0, v), hin, rfl⟩)
      simp only [get, if_true, Option.some.injEq, List.mem_cons, Prod.mk.injEq, true_and, hnot,
        or_false]
      exact eq_comm
    · have h' : ¬ k = k0 := fun e => h e.symm
      simp [get, h, h', ih hnd.2]

theorem nodup_perm {V : Type} {m m2 : GoMap V} (p : m.Perm m2) (hm : m.keys.Nodup) :
    m2.keys.Nodup :=
  (List.Perm.nodup_iff (List.Perm.map Prod.fst p)).1 hm

theorem get_perm {V : Type} {m m2 : GoMap V} (p : m.Perm m2) (hm : m.keys.Nodup) (k : String) :
    m2.get k = m.get k := by
  have hm2 := nodup_perm p hm
  cases h : m.get k with
  | some v =>
    exact (get_eq_some_iff m2 hm2 k v).2 (p.mem_iff.1 ((get_eq_some_iff m hm k v).1 h))
  | none =>
    cases h2 : m2.get k with
    | none => rfl
    | some v =>
      have := (get_eq_some_iff m hm k v).2 (p.mem_iff.2 ((get_eq_some_iff m2 hm2 k v).1 h2))
      rw [h] at this
      exact Option.noConfusion this

end GoMap

/-! ## `Range`: indexed reads after appends, emptiness -/

namespace kubecost

theorem Range.sets_foldl_Append {T : Type} (xs : List T) (r : Range T) :
    (xs.foldl Range.Append r).sets = r.sets ++ xs := by
  induction xs generalizing r with
  | nil => simp
  | cons x rest ih => simp [ih, Range.Append]

theorem Range.IsEmpty_loop_eq_true {T : Type} [Set T] (xs : List T) :
    Range.IsEmpty.loop xs = true ↔ ∀ s ∈ xs, Set.IsEmpty s = true := by
  induction xs with
  | nil => simp [Range.IsEmpty.loop]
  | cons x rest ih =>
    cases hx : Set.IsEmpty x <;> simp [Range.IsEmpty.loop, hx, ih]

/-- C1: after appending `x_0, ..., x_{n-1}` to an empty Range, `Get(j)` for an
index `0 <= j < n` succeeds with exactly `x_j`, also after further Appends
`ys`; and `Get(i)` for `i < 0` or `i >= n` fails with the index-out-of-range
error. -/
theorem Range.Get_after_Appends {T : Type} [Inhabited T] (xs ys : List T) :
    (∀ (j : Nat) (h : j < xs.length),
      Range.Get (xs.foldl Range.Append Range.empty) (j : Int) = (xs[j], none) ∧
      Range.Get (ys.foldl Range.Append (xs.foldl Range.Append Range.empty)) (j : Int)
        = (xs[j], none)) ∧
    (∀ i : Int, i < 0 ∨ i ≥ (xs.length : Int) →
      Range.Get (xs.foldl Range.Append Range.empty) i
        = (default, some ("range: index out of range: " ++ toString i))) := by
  refine ⟨fun j h => ⟨?_, ?_⟩, fun i hi => ?_⟩
  · have hlt : ¬ ((j : Int) < 0 ∨ (j : Int) ≥ (xs.length : Int)) := by omega
    simp only [Range.Get, Range.sets_foldl_Append, Range.empty, List.nil_append, hlt,
      if_false, Int.toNat_ofNat]
    rw [List.getD_eq_getElem _ _ h]
  · have hlt : ¬ ((j : Int) < 0 ∨ (j : Int) ≥ ((xs ++ ys).length : Int)) := by
      simp only [List.length_append]; omega
    have h' : j < (xs ++ ys).length := by simp only [List.length_append]; omega
    simp only [Range.Get, Range.sets_foldl_Append, Range.empty, List.nil_append, hlt,
      if_false, Int.toNat_ofNat]
    rw [List.getD_eq_getElem _ _ h', List.getElem_append_left h]
  · simp only [Range.Get, Range.sets_foldl_Append, Range.empty, List.nil_append, hi, if_true]

/-- Witness of C1 on the appends `10, 20, 30` followed by `40`: index 1 reads
`20` before and after the later append, indices `-1` and `3` fail. -/
theorem Range.Get_after_Appends_witness :
    Range.Get ([10, 20, 30].foldl Range.Append (Range.empty : Range Nat)) 1 = (20, none) ∧
    Range.Get ([40].foldl Range.Append
      ([10, 20, 30].foldl Range.Append (Range.empty : Range Nat))) 1 = (20, none) ∧
    Range.Get ([10, 20, 30].foldl Range.Append (Range.empty : Range Nat)) (-1)
      = (default, some ("range: index out of range: " ++ toString (-1 : Int))) ∧
    Range.Get ([10, 20, 30].foldl Range.Append (Range.empty : Range Nat)) 3
      = (default, some ("range: index out of range: " ++ toString (3 : Int))) :=
  ⟨((Range.Get_after_Appends [10, 20, 30] [40]).1 1 (by decide)).1,
   ((Range.Get_after_Appends [10, 20, 30] [40]).1 1 (by decide)).2,
   (Range.Get_after_Appends [10, 20, 30] [40]).2 (-1) (Or.inl (by decide)),
   (Range.Get_after_Appends [10, 20, 30] [40]).2 3 (Or.inr (by decide))⟩

/-- C10: `IsEmpty()` is true exactly when the Range holds zero elements or
every contained Set reports `IsEmpty`; a freshly constructed Range is empty, a
Range of only empty Sets is empty, and a Range to which a Set that is not
empty was appended is not empty. -/
theorem Range.IsEmpty_iff {T : Type} [Set T] (r : Range T) :
    (Range.IsEmpty (some r) = true ↔
      (r.sets.length = 0 ∨ ∀ s ∈ r.sets, Set.IsEmpty s = true)) ∧
    Range.IsEmpty (none : Option (Range T)) = true ∧
    Range.IsEmpty (some (Range.empty : Range T)) = true ∧
    ((∀ s ∈ r.sets, Set.IsEmpty s = true) → Range.IsEmpty (some r) = true) ∧
    (∀ x : T, Set.IsEmpty x = false → Range.IsEmpty (some (r.Append x)) = false) := by
  have key : ∀ q : Range T, Range.IsEmpty (some q) = true ↔
      (q.sets.length = 0 ∨ ∀ s ∈ q.sets, Set.IsEmpty s = true) := by
    intro q
    obtain ⟨xs⟩ := q
    cases xs with
    | nil => simp [Range.IsEmpty, Range.Length]
    | cons x rest =>
      have hne : ¬ ((rest.length : Int) + 1 = 0) := by omega
      simp only [Range.IsEmpty, Range.Length, List.isEmpty_cons, List.length_cons,
        Nat.cast_add, Nat.cast_one, hne, if_false, Range.IsEmpty_loop_eq_true]
      simp [hne, Range.IsEmpty_loop_eq_true]
  refine ⟨key r, rfl, rfl, fun h => (key r).2 (Or.inr h), fun x hx => ?_⟩
  cases hE : Range.IsEmpty (some (r.Append x)) with
  | false => rfl
  | true =>
    rcases (key (r.Append x)).1 hE with h | h
    · simp [Range.Append] at h
    · have := h x (by simp [Range.Append])
      rw [hx] at this
      exact absurd this (by decide)

end kubecost

/-! ## `GetNetworkCost` -/

namespace costmodel

theorem foldl_append_singleton {α β : Type} (f : α → β) (xs : List α) (init : List β) :
    xs.foldl (fun results i => results ++ [f i]) init = init ++ xs.map f := by
  induction xs generalizing init with
  | nil => simp
  | cons x rest ih => simp [ih]

theorem max_three (a b c : Nat) : max a [b, c] = Max.max (Max.max a b) c := by
  simp only [max, List.foldl_cons, List.foldl_nil]
  split <;> split <;> omega

theorem getElem?_or {α : Type} (xs : List α) (i : Nat) :
    (∃ h : i < xs.length, xs[i]? = some (xs[i])) ∨ (¬ i < xs.length ∧ xs[i]? = none) := by
  by_cases h : i < xs.length
  · exact Or.inl ⟨h, List.getElem?_eq_getElem h⟩
  · exact Or.inr ⟨h, List.getElem?_eq_none (Nat.le_of_not_lt h)⟩

theorem GetNetworkCost_ok {F : Type} [Zero F] [Add F] [Mul F] (usage : NetworkUsageData F)
    (pricing : Network F) :
    GetNetworkCost usage (.ok pricing) =
      ((List.range (max usage.NetworkZoneEgress.length
          [usage.NetworkRegionEgress.length, usage.NetworkInternetEgress.length])).map
        (GetNetworkCost.body usage pricing.ZoneNetworkEgressCost
          pricing.RegionNetworkEgressCost pricing.InternetNetworkEgressCost), none) := by
  simp only [GetNetworkCost, foldl_append_singleton, List.nil_append]

theorem GetNetworkCost_length {F : Type} [Zero F] [Add F] [Mul F] (usage : NetworkUsageData F)
    (pricing : Network F) :
    (GetNetworkCost usage (.ok pricing)).1.length =
      Max.max (Max.max usage.NetworkZoneEgress.length usage.NetworkRegionEgress.length)
        usage.NetworkInternetEgress.length := by
  rw [GetNetworkCost_ok, List.length_map, List.length_range, max_three]

theorem GetNetworkCost_getElem? {F : Type} [Zero F] [Add F] [Mul F]
    (usage : NetworkUsageData F) (pricing : Network F) (i : Nat)
    (h : i < (GetNetworkCost usage (.ok pricing)).1.length) :
    (GetNetworkCost usage (.ok pricing)).1[i]? =
      some (GetNetworkCost.body usage pricing.ZoneNetworkEgressCost
        pricing.RegionNetworkEgressCost pricing.InternetNetworkEgressCost i) := by
  rw [GetNetworkCost_ok] at h ⊢
  rw [List.length_map, List.length_range] at h
  simp [List.getElem?_map, List.getElem?_range h]

theorem body_Value {F : Type} [Zero F] [Add F] [Mul F] (usage : NetworkUsageData F)
    (zc rc ic : F) (i : Nat) :
    (GetNetworkCost.body usage zc rc ic i).Value =
      (contribution usage.NetworkZoneEgress zc i ++ contribution usage.NetworkRegionEgress rc i
        ++ contribution usage.NetworkInternetEgress ic i).foldl (fun cost c => cost + c) 0 := by
  simp only [GetNetworkCost.body, contribution]
  rcases getElem?_or usage.NetworkZoneEgress i with ⟨hz, ez⟩ | ⟨hz, ez⟩ <;>
  rcases getElem?_or usage.NetworkRegionEgress i with ⟨hr, er⟩ | ⟨hr, er⟩ <;>
  rcases getElem?_or usage.NetworkInternetEgress i with ⟨hi, ei⟩ | ⟨hi, ei⟩ <;>
  simp [hz, hr, hi, ez, er, ei]

theorem body_Timestamp {F : Type} [Zero F] [Add F] [Mul F] (usage : NetworkUsageData F)
    (zc rc ic : F) (i : Nat)
    (h : i < Max.max (Max.max usage.NetworkZoneEgress.length usage.NetworkRegionEgress.length)
        usage.NetworkInternetEgress.length) :
    some (GetNetworkCost.body usage zc rc ic i).Timestamp =
      if i < usage.NetworkInternetEgress.length then
        (usage.NetworkInternetEgress[i]?).map Vector.Timestamp
      else if i < usage.NetworkRegionEgress.length then
        (usage.NetworkRegionEgress[i]?).map Vector.Timestamp
      else (usage.NetworkZoneEgress[i]?).map Vector.Timestamp := by
  simp only [GetNetworkCost.body]
  rcases getElem?_or usage.NetworkZoneEgress i with ⟨hz, ez⟩ | ⟨hz, ez⟩ <;>
  rcases getElem?_or usage.NetworkRegionEgress i with ⟨hr, er⟩ | ⟨hr, er⟩ <;>
  rcases getElem?_or usage.NetworkInternetEgress i with ⟨hi, ei⟩ | ⟨hi, ei⟩ <;>
  first
  | (exfalso; simp only [lt_max_iff] at h; omega)
  | simp [hz, hr, hi, ez, er, ei]

end costmodel

namespace costmodel

/-- C3: with a successful pricing lookup, the cost of `result[i]` is the sum,
accumulated from 0 in the order zone, region, internet, of `series[i].Value`
times the rate of the series, over exactly the series that have an element at
index `i`. -/
theorem GetNetworkCost_cost_at {F : Type} [Zero F] [Add F] [Mul F]
    (usage : NetworkUsageData F) (pricing : Network F) (i : Nat)
    (h : i < (GetNetworkCost usage (.ok pricing)).1.length) :
    ((GetNetworkCost usage (.ok pricing)).1[i]?).map Vector.Value =
      some ((contribution usage.NetworkZoneEgress pricing.ZoneNetworkEgressCost i
        ++ contribution usage.NetworkRegionEgress pricing.RegionNetworkEgressCost i
        ++ contribution usage.NetworkInternetEgress pricing.InternetNetworkEgressCost i).foldl
          (fun cost c => cost + c) 0) := by
  rw [GetNetworkCost_getElem? usage pricing i h, Option.map_some', body_Value]

/-- Witness of C3 on the example of the specification: the costs are `0.4` at
index 0 and `0.2` at index 1. -/
theorem GetNetworkCost_cost_at_witness :
    ((GetNetworkCost exampleUsage (.ok exampleRates)).1[0]?).map Vector.Value = some (4 / 10) ∧
    ((GetNetworkCost exampleUsage (.ok exampleRates)).1[1]?).map Vector.Value = some (2 / 10) ∧
    (GetNetworkCost exampleUsage (.ok exampleRates)).1.length = 2 := by
  refine ⟨?_, ?_, by decide⟩
  · rw [GetNetworkCost_cost_at exampleUsage exampleRates 0 (by decide)]
    norm_num [contribution, exampleUsage, exampleRates]
  · rw [GetNetworkCost_cost_at exampleUsage exampleRates 1 (by decide)]
    norm_num [contribution, exampleUsage, exampleRates]

end costmodel

namespace costmodel

/-- C4: with a successful pricing lookup, `result[i]` exists for every index
`i` below the result length and its timestamp is that of element `i` of the
last series, in the order zone, region, internet, that has an element at `i`:
the internet one if `i < len(internet)`, else the region one if
`i < len(region)`, else the zone one. -/
theorem GetNetworkCost_timestamp_at {F : Type} [Zero F] [Add F] [Mul F]
    (usage : NetworkUsageData F) (pricing : Network F) (i : Nat)
    (h : i < (GetNetworkCost usage (.ok pricing)).1.length) :
    ∃ v, (GetNetworkCost usage (.ok pricing)).1[i]? = some v ∧
      some v.Timestamp =
        if i < usage.NetworkInternetEgress.length then
          (usage.NetworkInternetEgress[i]?).map Vector.Timestamp
        else if i < usage.NetworkRegionEgress.length then
          (usage.NetworkRegionEgress[i]?).map Vector.Timestamp
        else (usage.NetworkZoneEgress[i]?).map Vector.Timestamp := by
  refine ⟨_, GetNetworkCost_getElem? usage pricing i h, ?_⟩
  apply body_Timestamp
  rw [GetNetworkCost_length] at h
  exact h

/-- Witness of C4 on the example of the specification: index 0 carries the
region timestamp `t0`, index 1 the region timestamp `t1`. -/
theorem GetNetworkCost_timestamp_at_witness :
    (∃ v, (GetNetworkCost exampleUsage (.ok exampleRates)).1[0]? = some v ∧
      some v.Timestamp = some 100) ∧
    (∃ v, (GetNetworkCost exampleUsage (.ok exampleRates)).1[1]? = some v ∧
      some v.Timestamp = some 160) :=
  ⟨GetNetworkCost_timestamp_at exampleUsage exampleRates 0 (by decide),
   GetNetworkCost_timestamp_at exampleUsage exampleRates 1 (by decide)⟩

/-- C5: with a successful pricing lookup `GetNetworkCost` returns no error and
a sequence of length `max(len(zone), len(region), len(internet))`; when the
three series are empty the result is the empty sequence with no error. -/
theorem GetNetworkCost_length_max {F : Type} [Zero F] [Add F] [Mul F]
    (usage : NetworkUsageData F) (pricing : Network F) :
    (GetNetworkCost usage (.ok pricing)).2 = none ∧
    (GetNetworkCost usage (.ok pricing)).1.length =
      Max.max (Max.max usage.NetworkZoneEgress.length usage.NetworkRegionEgress.length)
        usage.NetworkInternetEgress.length ∧
    (GetNetworkCost usage (.ok pricing)).1.length =
      max usage.NetworkZoneEgress.length
        [usage.NetworkRegionEgress.length, usage.NetworkInternetEgress.length] ∧
    GetNetworkCost
      { usage with NetworkZoneEgress := [], NetworkRegionEgress := [],
                   NetworkInternetEgress := [] } (.ok pricing) = ([], none) := by
  refine ⟨?_, GetNetworkCost_length usage pricing, ?_, ?_⟩
  · rw [GetNetworkCost_ok]
  · rw [GetNetworkCost_length, max_three]
  · rw [GetNetworkCost_ok]
    rfl

/-- C9: when the pricing lookup fails, `GetNetworkCost` returns that error
together with the nil cost sequence, whatever the three series hold. -/
theorem GetNetworkCost_pricing_error {F : Type} [Zero F] [Add F] [Mul F]
    (usage : NetworkUsageData F) (err : GoError) :
    GetNetworkCost usage (.error err) = ([], some err) := by
  rfl

end costmodel

namespace kubecost

/-- C2: on a present receiver `r` and a present incoming set `t`,
`UpdateAuditSet` returns the receiver, its `AllocationReconciliation` equal to
the one of `t` when that is present and to the prior one of `r` when it is
absent. On a present receiver and a nil incoming pointer the source does not
return the receiver: it reads `that.AllocationReconciliation` through the nil
pointer. -/
theorem AuditSet.UpdateAuditSet_merge {F : Type} (r t : AuditSet F) :
    (∃ res, AuditSet.UpdateAuditSet (some r) (some t) = .returned (some res) ∧
      res.Window = r.Window ∧
      (∀ a, t.AllocationReconciliation = some a → res.AllocationReconciliation = some a) ∧
      (t.AllocationReconciliation = none →
        res.AllocationReconciliation = r.AllocationReconciliation)) ∧
    AuditSet.UpdateAuditSet (some r) none = .nilDereference := by
  refine ⟨?_, rfl⟩
  cases ht : t.AllocationReconciliation with
  | none =>
    exact ⟨r, by simp [AuditSet.UpdateAuditSet, ht], rfl, by simp, fun _ => rfl⟩
  | some a =>
    exact ⟨{ r with AllocationReconciliation := some a },
      by simp [AuditSet.UpdateAuditSet, ht], rfl, by simp, by simp⟩

end kubecost

namespace kubecost

/-- Witness of C2: the failed audit of the receiver is overwritten by the
passed audit of the incoming set, and kept when the incoming set has none; with
a nil incoming pointer the call stops at the nil dereference. -/
theorem AuditSet.UpdateAuditSet_merge_witness :
    (∃ res, AuditSet.UpdateAuditSet (some exampleReceiver) (some exampleIncoming)
        = .returned (some res) ∧
      res.AllocationReconciliation = some examplePassed) ∧
    (∃ res, AuditSet.UpdateAuditSet (some exampleReceiver) (some exampleBlank)
        = .returned (some res) ∧
      res.AllocationReconciliation = some exampleFailed) ∧
    AuditSet.UpdateAuditSet (some exampleReceiver) none = .nilDereference := by
  refine ⟨?_, ?_, (AuditSet.UpdateAuditSet_merge exampleReceiver exampleBlank).2⟩
  · obtain ⟨res, h1, _, h3, _⟩ :=
      (AuditSet.UpdateAuditSet_merge exampleReceiver exampleIncoming).1
    exact ⟨res, h1, h3 examplePassed rfl⟩
  · obtain ⟨res, h1, _, _, h4⟩ :=
      (AuditSet.UpdateAuditSet_merge exampleReceiver exampleBlank).1
    exact ⟨res, h1, h4 rfl⟩

/-- Witness of C10: a Range of a nil AuditSet and an AuditSet with no audit is
empty, and is not empty any more once a set holding an audit is appended. -/
theorem Range.IsEmpty_iff_witness :
    Range.IsEmpty (some (⟨[none, some exampleBlank]⟩ : Range (Option (AuditSet ℚ)))) = true ∧
    Range.IsEmpty (some ((⟨[none, some exampleBlank]⟩ : Range (Option (AuditSet ℚ))).Append
      (some exampleReceiver))) = false :=
  ⟨(Range.IsEmpty_iff ⟨[none, some exampleBlank]⟩).2.2.2.1
      (by simp [Set.IsEmpty, AuditSet.IsEmpty, exampleBlank]),
   (Range.IsEmpty_iff ⟨[none, some exampleBlank]⟩).2.2.2.2 (some exampleReceiver) rfl⟩

end kubecost

/-! ## `getNetworkUsage` and `GetNetworkUsageData` -/

namespace costmodel

theorem foldl_step_get {A B : Type} (step : GoMap B → String × A → GoMap B) (mk : A → B)
    (upd : B → A → B)
    (hstep : ∀ m kv, step m kv =
      m.set kv.1 ((m.get kv.1).elim (mk kv.2) (fun e => upd e kv.2)))
    (src : GoMap A) (hnd : src.keys.Nodup) (acc : GoMap B) (k : String) :
    (src.foldl step acc).get k =
      (src.get k).elim (acc.get k)
        (fun v => some ((acc.get k).elim (mk v) (fun e => upd e v))) := by
  induction src generalizing acc with
  | nil => simp [GoMap.get]
  | cons p rest ih =>
    obtain ⟨k0, v0⟩ := p
    have hnd' : k0 ∉ GoMap.keys rest ∧ (GoMap.keys rest).Nodup := by
      simpa [GoMap.keys] using hnd
    rw [List.foldl_cons, ih hnd'.2, hstep]
    by_cases hk : k0 = k
    · subst hk
      have hnone : GoMap.get rest k0 = none := (GoMap.get_eq_none_iff rest k0).2 hnd'.1
      simp [hnone, GoMap.get, GoMap.get_set_self]
    · have hk' : k ≠ k0 := fun e => hk e.symm
      simp [GoMap.get, hk, GoMap.get_set_ne _ _ _ _ hk']

theorem foldl_step_nodup {A B : Type} (step : GoMap B → String × A → GoMap B)
    (hstep : ∀ m kv, ∃ b, step m kv = m.set kv.1 b)
    (src : GoMap A) (acc : GoMap B) (hacc : acc.keys.Nodup) :
    (src.foldl step acc).keys.Nodup := by
  induction src generalizing acc with
  | nil => simpa using hacc
  | cons p rest ih =>
    rw [List.foldl_cons]
    apply ih
    obtain ⟨b, hb⟩ := hstep acc p
    rw [hb]
    exact GoMap.nodup_set _ _ _ hacc

theorem zoneStep_eq {F : Type} (m : GoMap (NetworkUsageData F))
    (kv : String × NetworkUsageVector F) :
    GetNetworkUsageData.zoneStep m kv =
      m.set kv.1 ((m.get kv.1).elim
        ((fun v : NetworkUsageVector F =>
          { ClusterID := v.ClusterID, PodName := v.PodName, Namespace := v.Namespace,
            NetworkZoneEgress := v.Values, NetworkRegionEgress := [],
            NetworkInternetEgress := [] }) kv.2)
        (fun e => (fun (e : NetworkUsageData F) (v : NetworkUsageVector F) =>
          { e with NetworkZoneEgress := v.Values }) e kv.2)) := by
  unfold GetNetworkUsageData.zoneStep
  cases m.get kv.1 <;> rfl

theorem regionStep_eq {F : Type} (m : GoMap (NetworkUsageData F))
    (kv : String × NetworkUsageVector F) :
    GetNetworkUsageData.regionStep m kv =
      m.set kv.1 ((m.get kv.1).elim
        ((fun v : NetworkUsageVector F =>
          { ClusterID := v.ClusterID, PodName := v.PodName, Namespace := v.Namespace,
            NetworkZoneEgress := [], NetworkRegionEgress := v.Values,
            NetworkInternetEgress := [] }) kv.2)
        (fun e => (fun (e : NetworkUsageData F) (v : NetworkUsageVector F) =>
          { e with NetworkRegionEgress := v.Values }) e kv.2)) := by
  unfold GetNetworkUsageData.regionStep
  cases m.get kv.1 <;> rfl

theorem internetStep_eq {F : Type} (m : GoMap (NetworkUsageData F))
    (kv : String × NetworkUsageVector F) :
    GetNetworkUsageData.internetStep m kv =
      m.set kv.1 ((m.get kv.1).elim
        ((fun v : NetworkUsageVector F =>
          { ClusterID := v.ClusterID, PodName := v.PodName, Namespace := v.Namespace,
            NetworkZoneEgress := [], NetworkRegionEgress := [],
            NetworkInternetEgress := v.Values }) kv.2)
        (fun e => (fun (e : NetworkUsageData F) (v : NetworkUsageVector F) =>
          { e with NetworkInternetEgress := v.Values }) e kv.2)) := by
  unfold GetNetworkUsageData.internetStep
  cases m.get kv.1 <;> rfl

theorem join_nodup {F : Type} (zm rm im : GoMap (NetworkUsageVector F)) :
    (GetNetworkUsageData.join zm rm im).keys.Nodup := by
  unfold GetNetworkUsageData.join
  apply foldl_step_nodup _ (fun m kv => ⟨_, internetStep_eq m kv⟩)
  apply foldl_step_nodup _ (fun m kv => ⟨_, regionStep_eq m kv⟩)
  apply foldl_step_nodup _ (fun m kv => ⟨_, zoneStep_eq m kv⟩)
  simp [GoMap.keys]

/-- What the join holds under a key, from what the three parsed maps hold under it. -/
theorem join_get_eq {F : Type} (zm rm im : GoMap (NetworkUsageVector F))
    (hz : zm.keys.Nodup) (hr : rm.keys.Nodup) (hi : im.keys.Nodup) (k : String) :
    (GetNetworkUsageData.join zm rm im).get k = joinEntry (zm.get k) (rm.get k) (im.get k) := by
  unfold GetNetworkUsageData.join
  simp only []
  rw [foldl_step_get GetNetworkUsageData.internetStep
      (fun v : NetworkUsageVector F =>
        { ClusterID := v.ClusterID, PodName := v.PodName, Namespace := v.Namespace,
          NetworkZoneEgress := [], NetworkRegionEgress := [],
          NetworkInternetEgress := v.Values })
      (fun (e : NetworkUsageData F) (v : NetworkUsageVector F) =>
        { e with NetworkInternetEgress := v.Values })
      internetStep_eq im hi,
    foldl_step_get GetNetworkUsageData.regionStep
      (fun v : NetworkUsageVector F =>
        { ClusterID := v.ClusterID, PodName := v.PodName, Namespace := v.Namespace,
          NetworkZoneEgress := [], NetworkRegionEgress := v.Values,
          NetworkInternetEgress := [] })
      (fun (e : NetworkUsageData F) (v : NetworkUsageVector F) =>
        { e with NetworkRegionEgress := v.Values })
      regionStep_eq rm hr,
    foldl_step_get GetNetworkUsageData.zoneStep
      (fun v : NetworkUsageVector F =>
        { ClusterID := v.ClusterID, PodName := v.PodName, Namespace := v.Namespace,
          NetworkZoneEgress := v.Values, NetworkRegionEgress := [],
          NetworkInternetEgress := [] })
      (fun (e : NetworkUsageData F) (v : NetworkUsageVector F) =>
        { e with NetworkZoneEgress := v.Values })
      zoneStep_eq zm hz]
  cases zm.get k <;> cases rm.get k <;> cases im.get k <;> simp [GoMap.get, joinEntry]

theorem join_get {F : Type} (zm rm im : GoMap (NetworkUsageVector F))
    (hz : zm.keys.Nodup) (hr : rm.keys.Nodup) (hi : im.keys.Nodup) (k : String) :
    ((GetNetworkUsageData.join zm rm im).get k).isSome =
        ((zm.get k).isSome || (rm.get k).isSome || (im.get k).isSome) ∧
    ∀ e, (GetNetworkUsageData.join zm rm im).get k = some e →
      e.NetworkZoneEgress = ((zm.get k).map NetworkUsageVector.Values).getD [] ∧
      e.NetworkRegionEgress = ((rm.get k).map NetworkUsageVector.Values).getD [] ∧
      e.NetworkInternetEgress = ((im.get k).map NetworkUsageVector.Values).getD [] := by
  rw [join_get_eq zm rm im hz hr hi]
  cases zm.get k <;> cases rm.get k <;> cases im.get k <;> simp [joinEntry]

/-- The order in which the three maps are ranged over does not matter: ranging
over any rearrangement of them gives a join with the same entries. -/
theorem join_get_perm {F : Type} (zm rm im zm2 rm2 im2 : GoMap (NetworkUsageVector F))
    (hz : zm.keys.Nodup) (hr : rm.keys.Nodup) (hi : im.keys.Nodup)
    (pz : zm2.Perm zm) (pr : rm2.Perm rm) (pi : im2.Perm im) (k : String) :
    (GetNetworkUsageData.join zm2 rm2 im2).get k = (GetNetworkUsageData.join zm rm im).get k := by
  rw [join_get_eq zm rm im hz hr hi,
    join_get_eq zm2 rm2 im2 ((GoMap.nodup_perm pz.symm hz)) (GoMap.nodup_perm pr.symm hr)
      (GoMap.nodup_perm pi.symm hi),
    GoMap.get_perm pz.symm hz, GoMap.get_perm pr.symm hr, GoMap.get_perm pi.symm hi]

end costmodel

namespace costmodel

theorem loop_nodup {F : Type} (d : String) (rows : List (QueryResult F))
    (m : GoMap (NetworkUsageVector F)) (hm : m.keys.Nodup) :
    (getNetworkUsage.loop d rows m).1.keys.Nodup := by
  induction rows generalizing m with
  | nil => simpa [getNetworkUsage.loop] using hm
  | cons val rest ih =>
    simp only [getNetworkUsage.loop]
    split
    · simp [GoMap.keys]
    · split
      · simp [GoMap.keys]
      · exact ih _ (GoMap.nodup_set _ _ _ hm)

theorem getNetworkUsage_nodup {F : Type} (qr : QueryHandle F) (d : String) :
    (getNetworkUsage qr d).1.keys.Nodup := by
  simp only [getNetworkUsage]
  split
  · simp [GoMap.keys]
  · exact loop_nodup d _ [] (by simp [GoMap.keys])

theorem loop_error {F : Type} (d : String) (rows : List (QueryResult F))
    (m : GoMap (NetworkUsageVector F)) :
    (getNetworkUsage.loop d rows m).2 = (rows.flatMap rowErrors).head? ∧
    ((getNetworkUsage.loop d rows m).2.isSome = true → (getNetworkUsage.loop d rows m).1 = []) := by
  induction rows generalizing m with
  | nil => simp [getNetworkUsage.loop]
  | cons val rest ih =>
    simp only [getNetworkUsage.loop, List.flatMap_cons, rowErrors, List.head?_append]
    cases hp : (val.GetString "pod_name").2 with
    | some e => simp
    | none =>
      cases hn : (val.GetString "namespace").2 with
      | some e => simp
      | none =>
        have := ih (m.set (rowKey d val)
          { ClusterID := if (val.GetString "cluster_id").1 = "" then d
              else (val.GetString "cluster_id").1,
            PodName := (val.GetString "pod_name").1,
            Namespace := (val.GetString "namespace").1, Values := val.Values })
        simpa [rowKey, rowErrors] using this

theorem getNetworkUsage_error {F : Type} (qr : QueryHandle F) (d : String) :
    (getNetworkUsage qr d).2 = (sourceErrors qr).head? ∧
    ((getNetworkUsage qr d).2.isSome = true → (getNetworkUsage qr d).1 = []) := by
  simp only [getNetworkUsage, sourceErrors]
  cases h : (NewQueryResults qr).2 with
  | some e => simp
  | none => simpa using loop_error d (NewQueryResults qr).1 []

theorem GetNetworkUsageData_error {F : Type} (zr rr ir : QueryHandle F) (d : String) :
    (GetNetworkUsageData zr rr ir d).2 = firstError zr rr ir ∧
    ((GetNetworkUsageData zr rr ir d).2.isSome = true → (GetNetworkUsageData zr rr ir d).1 = []) := by
  simp only [GetNetworkUsageData, firstError, List.head?_append,
    ← (getNetworkUsage_error zr d).1, ← (getNetworkUsage_error rr d).1,
    ← (getNetworkUsage_error ir d).1]
  cases hz : (getNetworkUsage zr d).2 with
  | some e => simp
  | none =>
    cases hr : (getNetworkUsage rr d).2 with
    | some e => simp
    | none =>
      cases hi : (getNetworkUsage ir d).2 with
      | some e => simp
      | none => simp

theorem GetNetworkUsageData_ok {F : Type} (zr rr ir : QueryHandle F) (d : String)
    (hz : (getNetworkUsage zr d).2 = none) (hr : (getNetworkUsage rr d).2 = none)
    (hi : (getNetworkUsage ir d).2 = none) :
    GetNetworkUsageData zr rr ir d =
      (GetNetworkUsageData.join (getNetworkUsage zr d).1 (getNetworkUsage rr d).1
        (getNetworkUsage ir d).1, none) := by
  simp [GetNetworkUsageData, hz, hr, hi]

theorem loop_keys {F : Type} (d : String) (rows : List (QueryResult F))
    (m : GoMap (NetworkUsageVector F)) (hok : (getNetworkUsage.loop d rows m).2 = none)
    (k : String) :
    k ∈ (getNetworkUsage.loop d rows m).1.keys ↔ k ∈ m.keys ∨ ∃ val ∈ rows, rowKey d val = k := by
  induction rows generalizing m with
  | nil => simp [getNetworkUsage.loop]
  | cons val rest ih =>
    simp only [getNetworkUsage.loop] at hok ⊢
    cases hp : (val.GetString "pod_name").2 with
    | some e => simp [hp] at hok
    | none =>
      cases hn : (val.GetString "namespace").2 with
      | some e => simp [hp, hn] at hok
      | none =>
        simp only [hp, hn, Option.isSome_none, Bool.false_eq_true, if_false] at hok ⊢
        rw [ih _ hok, GoMap.mem_keys_set]
        simp only [List.mem_cons, exists_eq_or_imp, rowKey]
        constructor
        · rintro ((h | h) | h)
          · exact Or.inr (Or.inl h.symm)
          · exact Or.inl h
          · exact Or.inr (Or.inr h)
        · rintro (h | h | h)
          · exact Or.inl (Or.inr h)
          · exact Or.inl (Or.inl h.symm)
          · exact Or.inr h

end costmodel

namespace costmodel

theorem getNetworkUsage_keys {F : Type} (qr : QueryHandle F) (d : String)
    (hok : (getNetworkUsage qr d).2 = none) (k : String) :
    k ∈ (getNetworkUsage qr d).1.keys ↔ ∃ val ∈ (NewQueryResults qr).1, rowKey d val = k := by
  simp only [getNetworkUsage] at hok ⊢
  cases h : (NewQueryResults qr).2 with
  | some e => simp [h] at hok
  | none =>
    simp only [h, Option.isSome_none, Bool.false_eq_true, if_false] at hok ⊢
    rw [loop_keys d _ [] hok]
    simp [GoMap.keys]

theorem join_mem_keys {F : Type} (zm rm im : GoMap (NetworkUsageVector F))
    (hz : zm.keys.Nodup) (hr : rm.keys.Nodup) (hi : im.keys.Nodup) (k : String) :
    k ∈ (GetNetworkUsageData.join zm rm im).keys ↔ k ∈ zm.keys ∨ k ∈ rm.keys ∨ k ∈ im.keys := by
  rw [← GoMap.get_isSome_iff, ← GoMap.get_isSome_iff, ← GoMap.get_isSome_iff,
    ← GoMap.get_isSome_iff, (join_get zm rm im hz hr hi k).1]
  simp [Bool.or_eq_true, or_assoc]

theorem sourceErrors_eq_nil {F : Type} (qr : QueryHandle F)
    (hparse : (NewQueryResults qr).2 = none)
    (hrows : ∀ row ∈ (NewQueryResults qr).1,
      (row.GetString "pod_name").2 = none ∧ (row.GetString "namespace").2 = none) :
    sourceErrors qr = [] := by
  simp only [sourceErrors, hparse, List.flatMap_eq_nil_iff]
  intro row hrow
  simp [rowErrors, hrows row hrow]

theorem sourceErrors_ne_nil {F : Type} (qr : QueryHandle F) (row : QueryResult F)
    (hrow : row ∈ (NewQueryResults qr).1)
    (hbad : (row.GetString "pod_name").2.isSome = true ∨
      (row.GetString "namespace").2.isSome = true) :
    sourceErrors qr ≠ [] := by
  simp only [sourceErrors]
  cases h : (NewQueryResults qr).2 with
  | some e => simp
  | none =>
    simp only [ne_eq, List.flatMap_eq_nil_iff, not_forall]
    refine ⟨row, hrow, ?_⟩
    rcases hbad with hb | hb
    · obtain ⟨e, he⟩ := Option.isSome_iff_exists.1 hb
      simp [rowErrors, he]
    · obtain ⟨e, he⟩ := Option.isSome_iff_exists.1 hb
      simp [rowErrors, he]

end costmodel

namespace costmodel

/-- C6: when the three sources parse, `GetNetworkUsageData` returns without
error a map whose key set is exactly the union of the keys of the three parsed
maps, and under every key the zone series is the one the zone map holds under
that key, empty when the zone map lacks the key; likewise the region series
with the region map and the internet series with the internet map. -/
theorem GetNetworkUsageData_outer_join {F : Type} (zr rr ir : QueryHandle F) (d : String)
    (hz : (getNetworkUsage zr d).2 = none) (hr : (getNetworkUsage rr d).2 = none)
    (hi : (getNetworkUsage ir d).2 = none) :
    ∃ m, GetNetworkUsageData zr rr ir d = (m, none) ∧ m.keys.Nodup ∧
      (∀ k, k ∈ m.keys ↔
        k ∈ (getNetworkUsage zr d).1.keys ∨ k ∈ (getNetworkUsage rr d).1.keys ∨
          k ∈ (getNetworkUsage ir d).1.keys) ∧
      ∀ k e, m.get k = some e →
        e.NetworkZoneEgress =
          (((getNetworkUsage zr d).1.get k).map NetworkUsageVector.Values).getD [] ∧
        e.NetworkRegionEgress =
          (((getNetworkUsage rr d).1.get k).map NetworkUsageVector.Values).getD [] ∧
        e.NetworkInternetEgress =
          (((getNetworkUsage ir d).1.get k).map NetworkUsageVector.Values).getD [] :=
  ⟨_, GetNetworkUsageData_ok zr rr ir d hz hr hi, join_nodup _ _ _,
    fun k => join_mem_keys _ _ _ (getNetworkUsage_nodup zr d) (getNetworkUsage_nodup rr d)
      (getNetworkUsage_nodup ir d) k,
    fun k => (join_get _ _ _ (getNetworkUsage_nodup zr d) (getNetworkUsage_nodup rr d)
      (getNetworkUsage_nodup ir d) k).2⟩

theorem example_join_eval :
    GetNetworkUsageData exampleZone exampleRegion exampleInternet "c0" =
      ([("a,p,c1", { ClusterID := "c1", PodName := "p", Namespace := "a",
                     NetworkZoneEgress := samples3, NetworkRegionEgress := samples2,
                     NetworkInternetEgress := [] }),
        ("b,q,c1", { ClusterID := "c1", PodName := "q", Namespace := "b",
                     NetworkZoneEgress := [], NetworkRegionEgress := [],
                     NetworkInternetEgress := samples1 })], none) := by
  decide

end costmodel

namespace costmodel

/-- Witness of C6 on the example of the specification: exactly the two entries
`a,p,c1` (3 zone samples, 2 region samples, no internet series) and `b,q,c1`
(only an internet series, of 1 sample). -/
theorem GetNetworkUsageData_outer_join_witness :
    ∃ m, GetNetworkUsageData exampleZone exampleRegion exampleInternet "c0" = (m, none) ∧
      m.keys = ["a,p,c1", "b,q,c1"] ∧
      (∀ e, m.get "a,p,c1" = some e →
        e.NetworkZoneEgress = samples3 ∧ e.NetworkRegionEgress = samples2 ∧
          e.NetworkInternetEgress = []) ∧
      (∀ e, m.get "b,q,c1" = some e →
        e.NetworkZoneEgress = [] ∧ e.NetworkRegionEgress = [] ∧
          e.NetworkInternetEgress = samples1) := by
  obtain ⟨m, hm, _, _, hget⟩ :=
    GetNetworkUsageData_outer_join exampleZone exampleRegion exampleInternet "c0"
      (by decide) (by decide) (by decide)
  refine ⟨m, hm, ?_, fun e he => ?_, fun e he => ?_⟩
  · have h := hm.symm.trans example_join_eval
    rw [(Prod.mk.inj h).1]
    decide
  · have h := hget "a,p,c1" e he
    have h1 : (getNetworkUsage exampleZone "c0").1.get "a,p,c1"
        = some { ClusterID := "c1", PodName := "p", Namespace := "a", Values := samples3 } := by
      decide
    have h2 : (getNetworkUsage exampleRegion "c0").1.get "a,p,c1"
        = some { ClusterID := "c1", PodName := "p", Namespace := "a", Values := samples2 } := by
      decide
    have h3 : (getNetworkUsage exampleInternet "c0").1.get "a,p,c1" = none := by decide
    rw [h1, h2, h3] at h
    exact h
  · have h := hget "b,q,c1" e he
    have h1 : (getNetworkUsage exampleZone "c0").1.get "b,q,c1" = none := by decide
    have h2 : (getNetworkUsage exampleRegion "c0").1.get "b,q,c1" = none := by decide
    have h3 : (getNetworkUsage exampleInternet "c0").1.get "b,q,c1"
        = some { ClusterID := "c1", PodName := "q", Namespace := "b", Values := samples1 } := by
      decide
    rw [h1, h2, h3] at h
    exact h

/-- C7: when a row of one of the three query results lacks its `pod_name` or
its `namespace`, `GetNetworkUsageData` returns an error and the nil map, and
the error is the first one met when the sources are processed in the order
zone, region, internet and the rows of each in result order. -/
theorem GetNetworkUsageData_first_error {F : Type} (zr rr ir : QueryHandle F) (d : String)
    (row : QueryResult F)
    (hrow : row ∈ (NewQueryResults zr).1 ∨ row ∈ (NewQueryResults rr).1 ∨
      row ∈ (NewQueryResults ir).1)
    (hbad : (row.GetString "pod_name").2.isSome = true ∨
      (row.GetString "namespace").2.isSome = true) :
    ∃ err, GetNetworkUsageData zr rr ir d = ([], some err) ∧ firstError zr rr ir = some err := by
  have hne : sourceErrors zr ++ sourceErrors rr ++ sourceErrors ir ≠ [] := by
    rcases hrow with h | h | h
    · have := sourceErrors_ne_nil zr row h hbad
      simp [this]
    · have := sourceErrors_ne_nil rr row h hbad
      simp [this]
    · have := sourceErrors_ne_nil ir row h hbad
      simp [this]
  obtain ⟨herr, hnil⟩ := GetNetworkUsageData_error zr rr ir d
  cases hfe : firstError zr rr ir with
  | none =>
    exfalso
    apply hne
    simpa [firstError, List.head?_eq_none_iff] using hfe
  | some err =>
    refine ⟨err, ?_, rfl⟩
    rw [hfe] at herr
    have h1 := hnil (by rw [herr]; rfl)
    exact Prod.ext h1 herr

/-- Witness of C7: the region source holds a row with no `namespace` label; the
join returns the nil map and the error of that row. -/
theorem GetNetworkUsageData_first_error_witness :
    ∃ err, GetNetworkUsageData exampleZone exampleBadSource exampleInternet "c0"
        = ([], some err) ∧
      firstError exampleZone exampleBadSource exampleInternet = some err :=
  GetNetworkUsageData_first_error exampleZone exampleBadSource exampleInternet "c0"
    (mkRow (some "q") none (some "c1") samples1)
    (Or.inr (Or.inl (by simp [NewQueryResults, exampleBadSource])))
    (Or.inr (by decide))

end costmodel

namespace costmodel

/-- C8 as stated fails: the only row of the zone source has no `cluster_id`, so
extracting it fails, yet `GetNetworkUsageData` returns no error and a map
holding the row under the default cluster id `c0`. -/
theorem GetNetworkUsageData_cluster_id_counterexample :
    (∃ row ∈ (NewQueryResults exampleNoCluster).1,
      (row.GetString "cluster_id").2.isSome = true) ∧
    GetNetworkUsageData exampleNoCluster exampleNoRows exampleNoRows "c0" =
      ([("a,p,c0", { ClusterID := "c0", PodName := "p", Namespace := "a",
                     NetworkZoneEgress := samples1, NetworkRegionEgress := [],
                     NetworkInternetEgress := [] })], none) ∧
    ¬ ∃ err, GetNetworkUsageData exampleNoCluster exampleNoRows exampleNoRows "c0"
      = ([], some err) := by
  refine ⟨⟨mkRow (some "p") (some "a") none samples1, ?_, by decide⟩, by decide, ?_⟩
  · simp [NewQueryResults, exampleNoCluster]
  · rintro ⟨err, h⟩
    have h2 : (GetNetworkUsageData exampleNoCluster exampleNoRows exampleNoRows "c0").2
        = none := by decide
    rw [h] at h2
    exact Option.noConfusion h2

/-- C8, amended: a failure to extract `cluster_id` does not abort the join.
When the three query results parse and every row has its `pod_name` and its
`namespace`, `GetNetworkUsageData` returns no error whatever the extraction of
`cluster_id` returns, and every row is present in the map under its key, built
with the cluster id string the extraction returned, or with the default
cluster id when that string is empty. -/
theorem GetNetworkUsageData_cluster_id_optional {F : Type} (zr rr ir : QueryHandle F)
    (d : String)
    (hparse : (NewQueryResults zr).2 = none ∧ (NewQueryResults rr).2 = none ∧
      (NewQueryResults ir).2 = none)
    (hrows : ∀ row, row ∈ (NewQueryResults zr).1 ∨ row ∈ (NewQueryResults rr).1 ∨
        row ∈ (NewQueryResults ir).1 →
      (row.GetString "pod_name").2 = none ∧ (row.GetString "namespace").2 = none) :
    (GetNetworkUsageData zr rr ir d).2 = none ∧
    ∀ row, row ∈ (NewQueryResults zr).1 ∨ row ∈ (NewQueryResults rr).1 ∨
        row ∈ (NewQueryResults ir).1 →
      rowKey d row ∈ (GetNetworkUsageData zr rr ir d).1.keys ∧
      ((row.GetString "cluster_id").1 = "" →
        rowKey d row =
          (row.GetString "namespace").1 ++ "," ++ (row.GetString "pod_name").1 ++ "," ++ d) := by
  have ez := sourceErrors_eq_nil zr hparse.1 (fun row h => hrows row (Or.inl h))
  have er := sourceErrors_eq_nil rr hparse.2.1 (fun row h => hrows row (Or.inr (Or.inl h)))
  have ei := sourceErrors_eq_nil ir hparse.2.2 (fun row h => hrows row (Or.inr (Or.inr h)))
  have hz : (getNetworkUsage zr d).2 = none := by rw [(getNetworkUsage_error zr d).1, ez]; rfl
  have hr : (getNetworkUsage rr d).2 = none := by rw [(getNetworkUsage_error rr d).1, er]; rfl
  have hi : (getNetworkUsage ir d).2 = none := by rw [(getNetworkUsage_error ir d).1, ei]; rfl
  rw [GetNetworkUsageData_ok zr rr ir d hz hr hi]
  refine ⟨rfl, fun row hrow => ⟨?_, fun hc => by simp [rowKey, hc]⟩⟩
  rw [join_mem_keys _ _ _ (getNetworkUsage_nodup zr d) (getNetworkUsage_nodup rr d)
    (getNetworkUsage_nodup ir d), getNetworkUsage_keys zr d hz, getNetworkUsage_keys rr d hr,
    getNetworkUsage_keys ir d hi]
  rcases hrow with h | h | h
  · exact Or.inl ⟨row, h, rfl⟩
  · exact Or.inr (Or.inl ⟨row, h, rfl⟩)
  · exact Or.inr (Or.inr ⟨row, h, rfl⟩)

/-- Witness of the amended C8: the row without `cluster_id` is joined without
error under the key `a,p,c0` built with the default cluster id. -/
theorem GetNetworkUsageData_cluster_id_optional_witness :
    (GetNetworkUsageData exampleNoCluster exampleNoRows exampleNoRows "c0").2 = none ∧
    "a,p,c0" ∈ (GetNetworkUsageData exampleNoCluster exampleNoRows exampleNoRows "c0").1.keys := by
  have h := GetNetworkUsageData_cluster_id_optional exampleNoCluster exampleNoRows
    exampleNoRows "c0" ⟨rfl, rfl, rfl⟩
    (by
      intro row hrow
      have hr : row = mkRow (some "p") (some "a") none samples1 := by
        simpa [NewQueryResults, exampleNoCluster, exampleNoRows] using hrow
      subst hr
      exact ⟨by decide, by decide⟩)
  refine ⟨h.1, ?_⟩
  have h2 := (h.2 (mkRow (some "p") (some "a") none samples1)
    (Or.inl (by simp [NewQueryResults, exampleNoCluster]))).1
  have hk : rowKey "c0" (mkRow (some "p") (some "a") none samples1 : QueryResult ℚ)
      = "a,p,c0" := by decide
  rw [hk] at h2
  exact h2

end costmodel

/-! ## `AuditCoverage.Update`, `UpdateAuditSet`, `IsEmpty`, `ToAuditType` -/

namespace kubecost

/-- C11: when the set is present and holds an AllocationReconciliation audit,
`Update` makes the coverage Window the union of its prior value and the Window
of the set, which for set bounds is the enclosing span (the earlier start, the
later end); otherwise the coverage is unchanged. -/
theorem AuditCoverage.Update_expand {F : Type} (c : AuditCoverage) :
    (∀ (s : AuditSet F) a, s.AllocationReconciliation = some a →
      AuditCoverage.Update c (some s)
        = { AllocationReconciliation := c.AllocationReconciliation.Expand s.Window }) ∧
    (∀ (s : AuditSet F), s.AllocationReconciliation = none →
      AuditCoverage.Update c (some s) = c) ∧
    AuditCoverage.Update c (none : Option (AuditSet F)) = c ∧
    (∀ a b x y : Int, Window.Expand ⟨some a, some b⟩ ⟨some x, some y⟩
      = ⟨some (min a x), some (max b y)⟩) ∧
    (∀ w : Window, Window.Expand ⟨none, none⟩ w = w) := by
  refine ⟨fun s a h => ?_, fun s h => ?_, rfl, fun a b x y => rfl, fun w => ?_⟩
  · simp [AuditCoverage.Update, h]
  · simp [AuditCoverage.Update, h]
  · obtain ⟨ws, we⟩ := w
    cases ws <;> cases we <;> rfl

/-- Witness of C11: a fresh coverage updated with a set of window `[0, 10)` and
then with a set of window `[20, 30)`, both holding an audit, covers `[0, 30)`;
a set with no audit leaves it unchanged. -/
theorem AuditCoverage.Update_expand_witness :
    AuditCoverage.Update (AuditCoverage.Update NewAuditCoverage (some exampleReceiver))
        (some exampleIncoming)
      = { AllocationReconciliation := ⟨some 0, some 30⟩ } ∧
    AuditCoverage.Update (AuditCoverage.Update NewAuditCoverage (some exampleReceiver))
        (some exampleBlank)
      = AuditCoverage.Update NewAuditCoverage (some exampleReceiver) := by
  constructor
  · rw [(AuditCoverage.Update_expand
        (AuditCoverage.Update NewAuditCoverage (some exampleReceiver))).1
      exampleIncoming examplePassed rfl]
    decide
  · exact (AuditCoverage.Update_expand
        (AuditCoverage.Update NewAuditCoverage (some exampleReceiver))).2.1 exampleBlank rfl

/-- C13: on a nil receiver `UpdateAuditSet` returns the incoming set itself,
nil or not, with nothing merged. -/
theorem AuditSet.UpdateAuditSet_nil_receiver {F : Type} (t : Option (AuditSet F)) :
    AuditSet.UpdateAuditSet none t = .returned t := by
  rfl

/-- C15: `IsEmpty()` holds exactly when the only optional audit field,
`AllocationReconciliation`, is absent; a nil AuditSet is empty. -/
theorem AuditSet.IsEmpty_iff_no_audit {F : Type} (s : AuditSet F) :
    (AuditSet.IsEmpty (some s) = true ↔ s.AllocationReconciliation = none) ∧
    AuditSet.IsEmpty (none : Option (AuditSet F)) = true := by
  refine ⟨?_, rfl⟩
  cases h : s.AllocationReconciliation <;> simp [AuditSet.IsEmpty, h]

/-- C18: `ToAuditType` maps `"AuditAllocationReconciliation"` to
`AuditAllocationReconciliation`, the empty string to `AuditAll` and every other
string to `AuditInvalidType`; it is the identity on the three constants and its
result is always one of them. -/
theorem ToAuditType_cases (check : String) :
    ToAuditType "AuditAllocationReconciliation" = AuditAllocationReconciliation ∧
    ToAuditType "" = AuditAll ∧
    (check ≠ "AuditAllocationReconciliation" → check ≠ "" →
      ToAuditType check = AuditInvalidType) ∧
    ToAuditType AuditAllocationReconciliation = AuditAllocationReconciliation ∧
    ToAuditType AuditAll = AuditAll ∧
    ToAuditType AuditInvalidType = AuditInvalidType ∧
    (ToAuditType check = AuditAllocationReconciliation ∨ ToAuditType check = AuditAll ∨
      ToAuditType check = AuditInvalidType) := by
  refine ⟨by decide, by decide, fun h1 h2 => ?_, by decide, by decide, by decide, ?_⟩
  · simp [ToAuditType, AuditAllocationReconciliation, AuditAll, h1, h2]
  · unfold ToAuditType
    split
    · exact Or.inl rfl
    · split
      · exact Or.inr (Or.inl rfl)
      · exact Or.inr (Or.inr rfl)

/-- Witness of C18 on the string `"Other"`, which is none of the constants. -/
theorem ToAuditType_cases_witness : ToAuditType "Other" = AuditInvalidType :=
  (ToAuditType_cases "Other").2.2.1 (by decide) (by decide)

/-- C19: on a present receiver `r` and a present incoming set `t`,
`UpdateAuditSet` returns the receiver with its Window unchanged, whatever the
Window of `t`; only `AllocationReconciliation` can differ from `r`. -/
theorem AuditSet.UpdateAuditSet_frame {F : Type} (r t : AuditSet F) :
    ∃ res, AuditSet.UpdateAuditSet (some r) (some t) = .returned (some res) ∧
      res.Window = r.Window ∧
      res = { r with AllocationReconciliation := res.AllocationReconciliation } := by
  cases ht : t.AllocationReconciliation with
  | none => exact ⟨r, by simp [AuditSet.UpdateAuditSet, ht], rfl, rfl⟩
  | some a =>
    exact ⟨{ r with AllocationReconciliation := some a },
      by simp [AuditSet.UpdateAuditSet, ht], rfl, rfl⟩

end kubecost

/-! ## `GetNetworkCost` is positional -/

namespace costmodel

theorem contribution_values {F : Type} [Mul F] (s1 s2 : List (Vector F)) (rate : F) (i : Nat)
    (h : s1.map Vector.Value = s2.map Vector.Value) :
    contribution s1 rate i = contribution s2 rate i := by
  have h1 : (s1[i]?).map Vector.Value = (s2[i]?).map Vector.Value := by
    rw [← List.getElem?_map, ← List.getElem?_map, h]
  unfold contribution
  cases e1 : s1[i]? <;> cases e2 : s2[i]? <;> simp [e1, e2] at h1 ⊢
  rw [h1]

/-- C17: two usages whose three series have the same values at every index
(hence the same lengths), whatever their timestamps, get with the same
successful pricing lookup results of the same length with the same cost at
every index. -/
theorem GetNetworkCost_positional {F : Type} [Zero F] [Add F] [Mul F]
    (u1 u2 : NetworkUsageData F) (pricing : Network F)
    (hz : u1.NetworkZoneEgress.map Vector.Value = u2.NetworkZoneEgress.map Vector.Value)
    (hr : u1.NetworkRegionEgress.map Vector.Value = u2.NetworkRegionEgress.map Vector.Value)
    (hi : u1.NetworkInternetEgress.map Vector.Value
      = u2.NetworkInternetEgress.map Vector.Value) :
    (GetNetworkCost u1 (.ok pricing)).1.length = (GetNetworkCost u2 (.ok pricing)).1.length ∧
    (GetNetworkCost u1 (.ok pricing)).1.map Vector.Value
      = (GetNetworkCost u2 (.ok pricing)).1.map Vector.Value := by
  have lz : u1.NetworkZoneEgress.length = u2.NetworkZoneEgress.length := by
    simpa using congrArg List.length hz
  have lr : u1.NetworkRegionEgress.length = u2.NetworkRegionEgress.length := by
    simpa using congrArg List.length hr
  have li : u1.NetworkInternetEgress.length = u2.NetworkInternetEgress.length := by
    simpa using congrArg List.length hi
  rw [GetNetworkCost_ok, GetNetworkCost_ok]
  simp only [List.length_map, List.length_range, List.map_map, lz, lr, li, true_and]
  apply List.map_congr_left
  intro i _
  simp only [Function.comp, body_Value, contribution_values _ _ _ i hz,
    contribution_values _ _ _ i hr, contribution_values _ _ _ i hi]

/-- Witness of C17: the cost example and a copy of it with all timestamps
changed get the same costs. -/
theorem GetNetworkCost_positional_witness :
    (GetNetworkCost exampleUsage (.ok exampleRates)).1.map Vector.Value
      = (GetNetworkCost exampleUsageShifted (.ok exampleRates)).1.map Vector.Value :=
  (GetNetworkCost_positional exampleUsage exampleUsageShifted exampleRates rfl rfl rfl).2

end costmodel

/-! ## What `getNetworkUsage` stores, and the keys of the join -/

namespace costmodel

theorem loop_get {F : Type} (d : String) (rows : List (QueryResult F))
    (m : GoMap (NetworkUsageVector F)) (hok : (getNetworkUsage.loop d rows m).2 = none)
    (k : String) :
    (getNetworkUsage.loop d rows m).1.get k =
      ((lastWithKey d rows k).map (rowVector d)).or (m.get k) := by
  induction rows generalizing m with
  | nil => simp [getNetworkUsage.loop, lastWithKey]
  | cons val rest ih =>
    simp only [getNetworkUsage.loop] at hok ⊢
    cases hp : (val.GetString "pod_name").2 with
    | some e => simp [hp] at hok
    | none =>
      cases hn : (val.GetString "namespace").2 with
      | some e => simp [hp, hn] at hok
      | none =>
        simp only [hp, hn, Option.isSome_none, Bool.false_eq_true, if_false] at hok ⊢
        rw [ih _ hok]
        simp only [lastWithKey]
        cases hl : lastWithKey d rest k with
        | some r => simp
        | none =>
          by_cases hk : rowKey d val = k
          · have hk2 := hk
            simp only [rowKey] at hk2
            simp only [hk, if_true, Option.map_some', Option.or_some]
            rw [← hk2, GoMap.get_set_self]
            rfl
          · have hk2 : k ≠ (val.GetString "namespace").1 ++ "," ++
                (val.GetString "pod_name").1 ++ "," ++
                (if (val.GetString "cluster_id").1 = "" then d
                 else (val.GetString "cluster_id").1) := fun e => hk e.symm
            simp only [hk, if_false, Option.map_none', Option.none_or]
            rw [GoMap.get_set_ne _ _ _ _ hk2]

theorem getNetworkUsage_get {F : Type} (qr : QueryHandle F) (d : String)
    (hok : (getNetworkUsage qr d).2 = none) (k : String) :
    (getNetworkUsage qr d).1.get k =
      (lastWithKey d (NewQueryResults qr).1 k).map (rowVector d) := by
  simp only [getNetworkUsage] at hok ⊢
  cases h : (NewQueryResults qr).2 with
  | some e => simp [h] at hok
  | none =>
    simp only [h, Option.isSome_none, Bool.false_eq_true, if_false] at hok ⊢
    rw [loop_get d _ [] hok]
    simp [GoMap.get]

theorem lastWithKey_key {F : Type} (d : String) (rows : List (QueryResult F)) (k : String)
    (r : QueryResult F) (h : lastWithKey d rows k = some r) : r ∈ rows ∧ rowKey d r = k := by
  induction rows with
  | nil => simp [lastWithKey] at h
  | cons val rest ih =>
    simp only [lastWithKey] at h
    cases hl : lastWithKey d rest k with
    | some r2 =>
      rw [hl] at h
      have hr : r2 = r := by simpa using h
      subst hr
      exact ⟨List.mem_cons_of_mem _ (ih hl).1, (ih hl).2⟩
    | none =>
      rw [hl] at h
      by_cases hk : rowKey d val = k
      · have hr : val = r := by simpa [hk] using h
        subst hr
        exact ⟨List.mem_cons_self _ _, hk⟩
      · simp [hk] at h

theorem lastWithKey_isSome {F : Type} (d : String) (rows : List (QueryResult F))
    (row : QueryResult F) (h : row ∈ rows) : (lastWithKey d rows (rowKey d row)).isSome = true := by
  induction rows with
  | nil => simp at h
  | cons val rest ih =>
    simp only [lastWithKey]
    cases hl : lastWithKey d rest (rowKey d row) with
    | some r => rfl
    | none =>
      rcases List.mem_cons.1 h with h1 | h1
      · subst h1
        simp
      · have := ih h1
        rw [hl] at this
        exact absurd this (by simp)

theorem lastWithKey_last {F : Type} (d : String) (front back : List (QueryResult F))
    (row : QueryResult F) (hback : ∀ r ∈ back, rowKey d r ≠ rowKey d row) :
    lastWithKey d (front ++ row :: back) (rowKey d row) = some row := by
  have hnone : lastWithKey d back (rowKey d row) = none := by
    cases hl : lastWithKey d back (rowKey d row) with
    | none => rfl
    | some r =>
      have := lastWithKey_key d back _ r hl
      exact absurd this.2 (hback r this.1)
  induction front with
  | nil => simp [lastWithKey, hnone]
  | cons val rest ih => simp [lastWithKey, ih]

theorem rowKey_rowVector {F : Type} (d : String) (r : QueryResult F) :
    rowKey d r = (rowVector d r).Namespace ++ "," ++ (rowVector d r).PodName ++ "," ++
      (rowVector d r).ClusterID := rfl

theorem rowClusterID_ne_empty {F : Type} (d : String) (r : QueryResult F) (hd : d ≠ "") :
    rowClusterID d r ≠ "" := by
  unfold rowClusterID
  split
  · exact hd
  · assumption

end costmodel

namespace costmodel

theorem getNetworkUsage_entry {F : Type} (qr : QueryHandle F) (d : String)
    (hok : (getNetworkUsage qr d).2 = none) (k : String) (v : NetworkUsageVector F)
    (hv : (getNetworkUsage qr d).1.get k = some v) :
    k = v.Namespace ++ "," ++ v.PodName ++ "," ++ v.ClusterID ∧ (d ≠ "" → v.ClusterID ≠ "") := by
  rw [getNetworkUsage_get qr d hok] at hv
  cases hl : lastWithKey d (NewQueryResults qr).1 k with
  | none => simp [hl] at hv
  | some r =>
    rw [hl] at hv
    have hr : rowVector d r = v := by simpa using hv
    subst hr
    exact ⟨((lastWithKey_key d _ k r hl).2).symm.trans (rowKey_rowVector d r),
      fun hd => rowClusterID_ne_empty d r hd⟩

theorem GetNetworkUsageData_ok_parts {F : Type} (zr rr ir : QueryHandle F) (d : String)
    (h : (GetNetworkUsageData zr rr ir d).2 = none) :
    (getNetworkUsage zr d).2 = none ∧ (getNetworkUsage rr d).2 = none ∧
      (getNetworkUsage ir d).2 = none := by
  simp only [GetNetworkUsageData] at h
  cases hz : (getNetworkUsage zr d).2 with
  | some e => simp [hz] at h
  | none =>
    cases hr : (getNetworkUsage rr d).2 with
    | some e => simp [hz, hr] at h
    | none =>
      cases hi : (getNetworkUsage ir d).2 with
      | some e => simp [hz, hr, hi] at h
      | none => exact ⟨rfl, rfl, rfl⟩

/-- C14 as stated fails: two rows have the key `a,p,c1`; the map holds under
it the values of the second row, so the first row is not stored with its own
values. -/
theorem getNetworkUsage_duplicate_counterexample :
    (getNetworkUsage exampleDuplicate "c0").2 = none ∧
    ∃ row ∈ (NewQueryResults exampleDuplicate).1,
      (getNetworkUsage exampleDuplicate "c0").1.get (rowKey "c0" row)
        ≠ some (rowVector "c0" row) := by
  refine ⟨by decide, mkRow (some "p") (some "a") (some "c1") samples3, ?_, by decide⟩
  simp [NewQueryResults, exampleDuplicate]

/-- C14, amended: when the query result parses, the key `n,p,c` of every row
(`c` the cluster id of the row when that is not empty, the default otherwise)
is present in the map, and the vector stored under it is the one built from
the last row in result order that has this key, with the cluster id, namespace,
pod name and values of that row; a row followed by no row of the same key is
stored with its own `c`, `n`, `p` and values. -/
theorem getNetworkUsage_stores_last {F : Type} (qr : QueryHandle F) (d : String)
    (hok : (getNetworkUsage qr d).2 = none) (row : QueryResult F)
    (hrow : row ∈ (NewQueryResults qr).1) :
    rowKey d row = (row.GetString "namespace").1 ++ "," ++ (row.GetString "pod_name").1 ++ ","
      ++ rowClusterID d row ∧
    (∃ last, lastWithKey d (NewQueryResults qr).1 (rowKey d row) = some last ∧
      last ∈ (NewQueryResults qr).1 ∧ rowKey d last = rowKey d row ∧
      (getNetworkUsage qr d).1.get (rowKey d row) = some (rowVector d last)) ∧
    (∀ front back, (NewQueryResults qr).1 = front ++ row :: back →
      (∀ r ∈ back, rowKey d r ≠ rowKey d row) →
      (getNetworkUsage qr d).1.get (rowKey d row) = some (rowVector d row)) := by
  refine ⟨rfl, ?_, fun front back hsplit hback => ?_⟩
  · obtain ⟨last, hlast⟩ := Option.isSome_iff_exists.1 (lastWithKey_isSome d _ row hrow)
    have hk := lastWithKey_key d _ _ last hlast
    exact ⟨last, hlast, hk.1, hk.2, by rw [getNetworkUsage_get qr d hok, hlast]; rfl⟩
  · rw [getNetworkUsage_get qr d hok, hsplit, lastWithKey_last d front back row hback]
    rfl

/-- Witness of the amended C14: under the key `a,p,c1` of its two rows the map
holds the vector of the second row, with its one sample. -/
theorem getNetworkUsage_stores_last_witness :
    (getNetworkUsage exampleDuplicate "c0").1.get "a,p,c1"
      = some { ClusterID := "c1", Namespace := "a", PodName := "p", Values := samples1 } := by
  have h := (getNetworkUsage_stores_last exampleDuplicate "c0" (by decide)
    (mkRow (some "p") (some "a") (some "c1") samples1)
    (by simp [NewQueryResults, exampleDuplicate])).2.2
      [mkRow (some "p") (some "a") (some "c1") samples3] [] rfl (by simp)
  have hk : rowKey "c0" (mkRow (some "p") (some "a") (some "c1") samples1 : QueryResult ℚ)
      = "a,p,c1" := by decide
  rw [hk] at h
  rw [h]
  decide

/-- C20: every entry `(k, e)` of the map a successful `GetNetworkUsageData`
returns has `k = e.Namespace + "," + e.PodName + "," + e.ClusterID`, and
`e.ClusterID` is not empty when the default cluster id is not empty. -/
theorem GetNetworkUsageData_entry_key {F : Type} (zr rr ir : QueryHandle F) (d : String)
    (m : GoMap (NetworkUsageData F)) (hres : GetNetworkUsageData zr rr ir d = (m, none))
    (k : String) (e : NetworkUsageData F) (hmem : (k, e) ∈ m) :
    k = e.Namespace ++ "," ++ e.PodName ++ "," ++ e.ClusterID ∧ (d ≠ "" → e.ClusterID ≠ "") := by
  have hok := GetNetworkUsageData_ok_parts zr rr ir d (by rw [hres])
  rw [GetNetworkUsageData_ok zr rr ir d hok.1 hok.2.1 hok.2.2] at hres
  have hm : m = GetNetworkUsageData.join (getNetworkUsage zr d).1 (getNetworkUsage rr d).1
      (getNetworkUsage ir d).1 := (Prod.mk.inj hres).1.symm
  have hget : m.get k = some e :=
    (GoMap.get_eq_some_iff m (by rw [hm]; exact join_nodup _ _ _) k e).2 hmem
  rw [hm, join_get_eq _ _ _ (getNetworkUsage_nodup zr d) (getNetworkUsage_nodup rr d)
    (getNetworkUsage_nodup ir d)] at hget
  have ez := getNetworkUsage_entry zr d hok.1 k
  have er := getNetworkUsage_entry rr d hok.2.1 k
  have ei := getNetworkUsage_entry ir d hok.2.2 k
  cases hz : (getNetworkUsage zr d).1.get k with
  | some v =>
    rw [hz] at hget
    simp only [joinEntry, Option.some.injEq] at hget
    subst hget
    exact ez v hz
  | none =>
    cases hr : (getNetworkUsage rr d).1.get k with
    | some v =>
      rw [hz, hr] at hget
      simp only [joinEntry, Option.some.injEq] at hget
      subst hget
      exact er v hr
    | none =>
      cases hi : (getNetworkUsage ir d).1.get k with
      | some v =>
        rw [hz, hr, hi] at hget
        simp only [joinEntry, Option.some.injEq] at hget
        subst hget
        exact ei v hi
      | none =>
        rw [hz, hr, hi] at hget
        simp [joinEntry] at hget

/-- Witness of C20 on the join example: the entry under `b,q,c1` has namespace
`b`, pod `q` and the cluster id `c1`, which is not empty. -/
theorem GetNetworkUsageData_entry_key_witness :
    (GetNetworkUsageData exampleZone exampleRegion exampleInternet "c0").2 = none ∧
    "b,q,c1" = "b" ++ "," ++ "q" ++ "," ++ "c1" ∧ ("c0" ≠ "" → "c1" ≠ "") :=
  ⟨by decide,
   GetNetworkUsageData_entry_key exampleZone exampleRegion exampleInternet "c0" _
    example_join_eval "b,q,c1"
    { ClusterID := "c1", PodName := "q", Namespace := "b",
      NetworkZoneEgress := [], NetworkRegionEgress := [],
      NetworkInternetEgress := samples1 }
    (by simp)⟩

end costmodel

/-! ## `Clone` -/

namespace GoMap

theorem set_of_not_mem {V : Type} (m : GoMap V) (k : String) (v : V) (h : k ∉ m.keys) :
    m.set k v = m ++ [(k, v)] := by
  induction m with
  | nil => rfl
  | cons p rest ih =>
    obtain ⟨k0, v0⟩ := p
    have h2 : ¬ k0 = k ∧ k ∉ keys rest := by
      constructor
      · intro e
        exact h (by simp [keys, e])
      · intro hin
        exact h (by simp only [keys, List.map_cons, List.mem_cons]; exact Or.inr hin)
    simp [set, h2.1, ih h2.2]

theorem foldl_set_rebuild {V W : Type} (f : V → W) (src : GoMap V) (acc : GoMap W)
    (hsrc : src.keys.Nodup) (hdisj : ∀ k ∈ src.keys, k ∉ acc.keys) :
    src.foldl (fun m kv => m.set kv.1 (f kv.2)) acc
      = acc ++ src.map (fun kv => (kv.1, f kv.2)) := by
  induction src generalizing acc with
  | nil => simp
  | cons p rest ih =>
    obtain ⟨k0, v0⟩ := p
    have hnd : k0 ∉ keys rest ∧ (keys rest).Nodup := by simpa [keys] using hsrc
    have hk0 : k0 ∉ acc.keys := hdisj k0 (by simp [keys])
    rw [List.foldl_cons, set_of_not_mem acc k0 (f v0) hk0, ih _ hnd.2]
    · simp
    · intro k hk
      have hk1 : k ∉ acc.keys := hdisj k (by
        simp only [keys, List.map_cons, List.mem_cons]; exact Or.inr hk)
      have hk2 : k ≠ k0 := fun e => hnd.1 (e ▸ hk)
      simp only [keys, List.map_append, List.map_cons, List.map_nil, List.mem_append,
        List.mem_singleton, not_or]
      exact ⟨hk1, hk2⟩

end GoMap

namespace kubecost

theorem slicesClone_eq {α : Type} (s : List α) : slicesClone s = s := by
  have h : ∀ init : List α, s.foldl (fun copy x => copy ++ [x]) init = init ++ s := by
    induction s with
    | nil => simp
    | cons x rest ih => intro init; simp [ih]
  simpa [slicesClone] using h []

theorem copyResourceMap_eq {F : Type} (rm : GoMap (AuditFloatResult F)) (h : rm.keys.Nodup) :
    AllocationReconciliationAudit.Clone.copyResourceMap rm = rm := by
  unfold AllocationReconciliationAudit.Clone.copyResourceMap
  rw [GoMap.foldl_set_rebuild AuditFloatResult.Clone rm [] h (by simp [GoMap.keys])]
  simp only [List.nil_append]
  conv_rhs => rw [← List.map_id rm]
  apply List.map_congr_left
  intro kv _
  rfl

theorem AllocationReconciliationAudit.Clone_eq {F : Type} (a : AllocationReconciliationAudit F)
    (h : a.KeysDistinct) :
    AllocationReconciliationAudit.Clone (some a) = .returned (some a) := by
  simp only [AllocationReconciliationAudit.Clone, slicesClone_eq]
  rw [GoMap.foldl_set_rebuild AllocationReconciliationAudit.Clone.copyResourceMap a.Resources []
    h.1 (by simp [GoMap.keys])]
  have hres : a.Resources.map (fun kv =>
      (kv.1, AllocationReconciliationAudit.Clone.copyResourceMap kv.2)) = a.Resources := by
    conv_rhs => rw [← List.map_id a.Resources]
    apply List.map_congr_left
    intro kv hkv
    simp [copyResourceMap_eq kv.2 (h.2 kv hkv)]
  simp only [List.nil_append, hres]

end kubecost

namespace kubecost

/-- C12: `Clone` of a nil AuditSet is nil, and `Clone` of an AuditSet holding an
audit (whose maps have distinct keys) returns an AuditSet of the same content:
same Window, status, description, last run, resource map and anomaly lists.
For an AuditSet with no audit the source does not return an AuditSet with no
audit: `AllocationReconciliationAudit.Clone` reads `ara.Resources` through
the nil receiver. -/
theorem AuditSet.Clone_content {F : Type} (s : AuditSet F) :
    AuditSet.Clone (none : Option (AuditSet F)) = .returned none ∧
    (∀ a, s.AllocationReconciliation = some a → a.KeysDistinct →
      AuditSet.Clone (some s) = .returned (some s)) ∧
    (s.AllocationReconciliation = none → AuditSet.Clone (some s) = .nilDereference) ∧
    (∀ start stop : Int, AuditSet.Clone (some (NewAuditSet start stop : AuditSet F))
      = .nilDereference) := by
  refine ⟨rfl, fun a ha hk => ?_, fun h => ?_, fun _ _ => rfl⟩
  · obtain ⟨ar, w⟩ := s
    simp only at ha
    subst ha
    simp only [AuditSet.Clone, AllocationReconciliationAudit.Clone_eq a hk, Window.Clone]
  · simp [AuditSet.Clone, AllocationReconciliationAudit.Clone, h]

/-- Witness of C12: the example receiver, which holds an audit, clones to an
AuditSet of the same content; the example set with no audit does not clone. -/
theorem AuditSet.Clone_content_witness :
    AuditSet.Clone (some exampleReceiver) = .returned (some exampleReceiver) ∧
    AuditSet.Clone (some exampleBlank) = .nilDereference :=
  ⟨(AuditSet.Clone_content exampleReceiver).2.1 exampleFailed rfl
      ⟨by decide, by decide⟩,
   (AuditSet.Clone_content exampleBlank).2.2.1 rfl⟩

end kubecost

/-! ## `Clone` on the heap: the clone shares no object with its original -/

namespace kubecost

theorem readEntries_cons {V : Type} (rd : Option Nat → Option (V × List Nat)) (k : String)
    (p : Option Nat) (rest : GoMap (Option Nat)) (vb : GoMap V × List Nat)
    (h : readEntries rd ((k, p) :: rest) = some vb) :
    ∃ va vr, rd p = some va ∧ readEntries rd rest = some vr ∧
      vb = ((k, va.1) :: vr.1, va.2 ++ vr.2) := by
  simp only [readEntries] at h
  cases h1 : rd p with
  | none => simp [h1] at h
  | some va =>
    cases h2 : readEntries rd rest with
    | none => simp [h1, h2] at h
    | some vr =>
      simp only [h1, h2, Option.some.injEq] at h
      exact ⟨va, vr, rfl, rfl, h.symm⟩

theorem readEntries_cons_eq {V : Type} (rd : Option Nat → Option (V × List Nat)) (k : String)
    (p : Option Nat) (rest : GoMap (Option Nat)) (va : V × List Nat)
    (vr : GoMap V × List Nat) (h1 : rd p = some va) (h2 : readEntries rd rest = some vr) :
    readEntries rd ((k, p) :: rest) = some ((k, va.1) :: vr.1, va.2 ++ vr.2) := by
  simp only [readEntries, h1, h2]

theorem readEntries_congr {V : Type} (rd1 rd2 : Option Nat → Option (V × List Nat))
    (Q : Nat → Prop)
    (hrd : ∀ p va, rd1 p = some va → (∀ a ∈ va.2, Q a) → rd2 p = some va)
    (es : GoMap (Option Nat)) (vb : GoMap V × List Nat)
    (h : readEntries rd1 es = some vb) (hQ : ∀ a ∈ vb.2, Q a) :
    readEntries rd2 es = some vb := by
  induction es generalizing vb with
  | nil => simpa [readEntries] using h
  | cons kp rest ih =>
    obtain ⟨k, p⟩ := kp
    obtain ⟨va, vr, h1, h2, rfl⟩ := readEntries_cons rd1 k p rest vb h
    have q1 : ∀ a ∈ va.2, Q a := fun a ha => hQ a (List.mem_append_left _ ha)
    have q2 : ∀ a ∈ vr.2, Q a := fun a ha => hQ a (List.mem_append_right _ ha)
    exact readEntries_cons_eq rd2 k p rest va vr (hrd p va h1 q1) (ih vr h2 q2)

theorem readEntries_bound {V : Type} (rd : Option Nat → Option (V × List Nat))
    (Q : Nat → Prop) (hrd : ∀ p va, rd p = some va → ∀ a ∈ va.2, Q a)
    (es : GoMap (Option Nat)) (vb : GoMap V × List Nat)
    (h : readEntries rd es = some vb) : ∀ a ∈ vb.2, Q a := by
  induction es generalizing vb with
  | nil =>
    have : vb = ([], []) := by simpa [readEntries] using h.symm
    subst this
    simp
  | cons kp rest ih =>
    obtain ⟨k, p⟩ := kp
    obtain ⟨va, vr, h1, h2, rfl⟩ := readEntries_cons rd k p rest vb h
    intro a ha
    rcases List.mem_append.1 ha with ha | ha
    · exact hrd p va h1 a ha
    · exact ih vr h2 a ha

theorem readEntries_set {V : Type} (rd : Option Nat → Option (V × List Nat))
    (m : GoMap (Option Nat)) (k : String) (q : Option Nat) (vb : GoMap V × List Nat)
    (va : V × List Nat) (hm : readEntries rd m = some vb) (hq : rd q = some va) :
    ∃ cs, readEntries rd (m.set k q) = some (GoMap.set vb.1 k va.1, cs) ∧
      ∀ a ∈ cs, a ∈ vb.2 ∨ a ∈ va.2 := by
  induction m generalizing vb with
  | nil =>
    have : vb = ([], []) := by simpa [readEntries] using hm.symm
    subst this
    refine ⟨va.2 ++ [], ?_, fun a ha => Or.inr (by simpa using ha)⟩
    exact readEntries_cons_eq rd k q [] va ([], []) hq rfl
  | cons kp rest ih =>
    obtain ⟨k0, p0⟩ := kp
    obtain ⟨v0, vr, h1, h2, rfl⟩ := readEntries_cons rd k0 p0 rest vb hm
    by_cases hk : k0 = k
    · subst hk
      refine ⟨va.2 ++ vr.2, ?_, ?_⟩
      · simp only [GoMap.set, if_true]
        exact readEntries_cons_eq rd k0 q rest va vr hq h2
      · intro a ha
        rcases List.mem_append.1 ha with ha | ha
        · exact Or.inr ha
        · exact Or.inl (List.mem_append_right _ ha)
    · obtain ⟨cs, hcs, hsub⟩ := ih vr h2
      refine ⟨v0.2 ++ cs, ?_, ?_⟩
      · simp only [GoMap.set, hk, if_false]
        exact readEntries_cons_eq rd k0 p0 (GoMap.set rest k q) v0 (GoMap.set vr.1 k va.1, cs) h1 hcs
      · intro a ha
        rcases List.mem_append.1 ha with ha | ha
        · exact Or.inl (List.mem_append_left _ ha)
        · rcases hsub a ha with hb | hb
          · exact Or.inl (List.mem_append_right _ hb)
          · exact Or.inr hb

/-! ### A read depends only on the objects it reads -/

theorem readFloat_congr {F : Type} (h1 h2 : Heap F) (p : Option Nat)
    (va : AuditFloatResult F × List Nat) (h : h1.readFloat p = some va)
    (hag : ∀ a ∈ va.2, h2[a]? = h1[a]?) : h2.readFloat p = some va := by
  cases p with
  | none => simp [Heap.readFloat] at h
  | some a =>
    simp only [Heap.readFloat] at h ⊢
    cases ho : h1[a]? with
    | none => simp [ho] at h
    | some o =>
      cases o <;> simp [ho] at h
      subst h
      rw [hag a (by simp), ho]

theorem readFloat_bound {F : Type} (h1 : Heap F) (p : Option Nat)
    (va : AuditFloatResult F × List Nat) (h : h1.readFloat p = some va) :
    ∀ a ∈ va.2, a < h1.length := by
  cases p with
  | none => simp [Heap.readFloat] at h
  | some a =>
    simp only [Heap.readFloat] at h
    cases ho : h1[a]? with
    | none => simp [ho] at h
    | some o =>
      cases o <;> simp [ho] at h
      subst h
      intro b hb
      have hb : b = a := by simpa using hb
      subst hb
      exact (List.getElem?_eq_some.1 ho).1

theorem readStrings_congr {F : Type} (h1 h2 : Heap F) (p : Option Nat)
    (va : List String × List Nat) (h : h1.readStrings p = some va)
    (hag : ∀ a ∈ va.2, h2[a]? = h1[a]?) : h2.readStrings p = some va := by
  cases p with
  | none => simpa [Heap.readStrings] using h
  | some a =>
    simp only [Heap.readStrings] at h ⊢
    cases ho : h1[a]? with
    | none => simp [ho] at h
    | some o =>
      cases o <;> simp [ho] at h
      subst h
      rw [hag a (by simp), ho]

theorem readStrings_bound {F : Type} (h1 : Heap F) (p : Option Nat)
    (va : List String × List Nat) (h : h1.readStrings p = some va) :
    ∀ a ∈ va.2, a < h1.length := by
  cases p with
  | none =>
    have : va = ([], []) := by simpa [Heap.readStrings] using h.symm
    subst this
    simp
  | some a =>
    simp only [Heap.readStrings] at h
    cases ho : h1[a]? with
    | none => simp [ho] at h
    | some o =>
      cases o <;> simp [ho] at h
      subst h
      intro b hb
      have hb : b = a := by simpa using hb
      subst hb
      exact (List.getElem?_eq_some.1 ho).1

end kubecost

namespace kubecost

theorem readResourceMap_inv {F : Type} (h : Heap F) (a : Nat)
    (va : GoMap (AuditFloatResult F) × List Nat) (hr : h.readResourceMap (some a) = some va) :
    ∃ es ve, h[a]? = some (.resourceMap es) ∧ readEntries h.readFloat es = some ve ∧
      va = (ve.1, a :: ve.2) := by
  simp only [Heap.readResourceMap] at hr
  cases ho : h[a]? with
  | none => simp [ho] at hr
  | some o =>
    cases o <;> simp [ho] at hr
    rename_i es
    obtain ⟨vs, eas, he, rfl⟩ := hr
    exact ⟨es, (vs, eas), rfl, he, rfl⟩

theorem readResourceMap_intro {F : Type} (h : Heap F) (a : Nat) (es : GoMap (Option Nat))
    (ve : GoMap (AuditFloatResult F) × List Nat) (ho : h[a]? = some (.resourceMap es))
    (he : readEntries h.readFloat es = some ve) :
    h.readResourceMap (some a) = some (ve.1, a :: ve.2) := by
  simp [Heap.readResourceMap, ho, he]

theorem readResourceMap_congr {F : Type} (h1 h2 : Heap F) (p : Option Nat)
    (va : GoMap (AuditFloatResult F) × List Nat) (h : h1.readResourceMap p = some va)
    (hag : ∀ a ∈ va.2, h2[a]? = h1[a]?) : h2.readResourceMap p = some va := by
  cases p with
  | none => simpa [Heap.readResourceMap] using h
  | some a =>
    obtain ⟨es, ve, ho, he, rfl⟩ := readResourceMap_inv h1 a va h
    apply readResourceMap_intro h2 a es ve
    · rw [hag a (by simp), ho]
    · exact readEntries_congr h1.readFloat h2.readFloat (fun a => h2[a]? = h1[a]?)
        (fun p va hp hq => readFloat_congr h1 h2 p va hp hq) es ve he
        (fun b hb => hag b (List.mem_cons_of_mem _ hb))

theorem readResourceMap_bound {F : Type} (h1 : Heap F) (p : Option Nat)
    (va : GoMap (AuditFloatResult F) × List Nat) (h : h1.readResourceMap p = some va) :
    ∀ a ∈ va.2, a < h1.length := by
  cases p with
  | none =>
    have : va = ([], []) := by simpa [Heap.readResourceMap] using h.symm
    subst this
    simp
  | some a =>
    obtain ⟨es, ve, ho, he, rfl⟩ := readResourceMap_inv h1 a va h
    intro b hb
    rcases List.mem_cons.1 hb with hb | hb
    · subst hb
      exact (List.getElem?_eq_some.1 ho).1
    · exact readEntries_bound h1.readFloat (fun a => a < h1.length)
        (fun p va hp => readFloat_bound h1 p va hp) es ve he b hb

theorem readNodeMap_inv {F : Type} (h : Heap F) (a : Nat)
    (va : GoMap (GoMap (AuditFloatResult F)) × List Nat)
    (hr : h.readNodeMap (some a) = some va) :
    ∃ es ve, h[a]? = some (.nodeMap es) ∧ readEntries h.readResourceMap es = some ve ∧
      va = (ve.1, a :: ve.2) := by
  simp only [Heap.readNodeMap] at hr
  cases ho : h[a]? with
  | none => simp [ho] at hr
  | some o =>
    cases o <;> simp [ho] at hr
    rename_i es
    obtain ⟨vs, eas, he, rfl⟩ := hr
    exact ⟨es, (vs, eas), rfl, he, rfl⟩

theorem readNodeMap_intro {F : Type} (h : Heap F) (a : Nat) (es : GoMap (Option Nat))
    (ve : GoMap (GoMap (AuditFloatResult F)) × List Nat) (ho : h[a]? = some (.nodeMap es))
    (he : readEntries h.readResourceMap es = some ve) :
    h.readNodeMap (some a) = some (ve.1, a :: ve.2) := by
  simp [Heap.readNodeMap, ho, he]

theorem readNodeMap_congr {F : Type} (h1 h2 : Heap F) (p : Option Nat)
    (va : GoMap (GoMap (AuditFloatResult F)) × List Nat) (h : h1.readNodeMap p = some va)
    (hag : ∀ a ∈ va.2, h2[a]? = h1[a]?) : h2.readNodeMap p = some va := by
  cases p with
  | none => simpa [Heap.readNodeMap] using h
  | some a =>
    obtain ⟨es, ve, ho, he, rfl⟩ := readNodeMap_inv h1 a va h
    apply readNodeMap_intro h2 a es ve
    · rw [hag a (by simp), ho]
    · exact readEntries_congr h1.readResourceMap h2.readResourceMap (fun a => h2[a]? = h1[a]?)
        (fun p va hp hq => readResourceMap_congr h1 h2 p va hp hq) es ve he
        (fun b hb => hag b (List.mem_cons_of_mem _ hb))

theorem readNodeMap_bound {F : Type} (h1 : Heap F) (p : Option Nat)
    (va : GoMap (GoMap (AuditFloatResult F)) × List Nat) (h : h1.readNodeMap p = some va) :
    ∀ a ∈ va.2, a < h1.length := by
  cases p with
  | none =>
    have : va = ([], []) := by simpa [Heap.readNodeMap] using h.symm
    subst this
    simp
  | some a =>
    obtain ⟨es, ve, ho, he, rfl⟩ := readNodeMap_inv h1 a va h
    intro b hb
    rcases List.mem_cons.1 hb with hb | hb
    · subst hb
      exact (List.getElem?_eq_some.1 ho).1
    · exact readEntries_bound h1.readResourceMap (fun a => a < h1.length)
        (fun p va hp => readResourceMap_bound h1 p va hp) es ve he b hb

theorem readAudit_inv {F : Type} (h : Heap F) (p : Option Nat)
    (va : AllocationReconciliationAudit F × List Nat) (hr : h.readAudit p = some va) :
    ∃ a status description lastRun resources allocs nodes missing r al nn mn,
      p = some a ∧
      h[a]? = some (.audit status description lastRun resources allocs nodes missing) ∧
      h.readNodeMap resources = some r ∧ h.readStrings allocs = some al ∧
      h.readStrings nodes = some nn ∧ h.readStrings missing = some mn ∧
      va = ({ Status := status, Description := description, LastRun := lastRun,
              Resources := r.1, AllocsBlankNode := al.1, NodesWithNoAllocs := nn.1,
              MissingNodes := mn.1 },
            a :: (r.2 ++ al.2 ++ nn.2 ++ mn.2)) := by
  cases p with
  | none => simp [Heap.readAudit] at hr
  | some a =>
    simp only [Heap.readAudit] at hr
    cases ho : h[a]? with
    | none => simp [ho] at hr
    | some o =>
      cases o with
      | audit status description lastRun resources allocs nodes missing =>
        simp only [ho] at hr
        cases h1 : h.readNodeMap resources with
        | none => simp [h1] at hr
        | some r =>
          cases h2 : h.readStrings allocs with
          | none => simp [h1, h2] at hr
          | some al =>
            cases h3 : h.readStrings nodes with
            | none => simp [h1, h2, h3] at hr
            | some nn =>
              cases h4 : h.readStrings missing with
              | none => simp [h1, h2, h3, h4] at hr
              | some mn =>
                simp only [h1, h2, h3, h4, Option.some.injEq] at hr
                exact ⟨a, status, description, lastRun, resources, allocs, nodes, missing,
                  r, al, nn, mn, rfl, ho, h1, h2, h3, h4, hr.symm⟩
      | _ => simp [ho] at hr

theorem readAudit_intro {F : Type} (h : Heap F) (a : Nat) (status : AuditStatus)
    (description : String) (lastRun : Int) (resources allocs nodes missing : Option Nat)
    (r : GoMap (GoMap (AuditFloatResult F)) × List Nat) (al nn mn : List String × List Nat)
    (ho : h[a]? = some (.audit status description lastRun resources allocs nodes missing))
    (h1 : h.readNodeMap resources = some r) (h2 : h.readStrings allocs = some al)
    (h3 : h.readStrings nodes = some nn) (h4 : h.readStrings missing = some mn) :
    h.readAudit (some a) =
      some ({ Status := status, Description := description, LastRun := lastRun,
              Resources := r.1, AllocsBlankNode := al.1, NodesWithNoAllocs := nn.1,
              MissingNodes := mn.1 },
            a :: (r.2 ++ al.2 ++ nn.2 ++ mn.2)) := by
  simp only [Heap.readAudit, ho, h1, h2, h3, h4]

theorem readAudit_congr {F : Type} (h1 h2 : Heap F) (p : Option Nat)
    (va : AllocationReconciliationAudit F × List Nat) (h : h1.readAudit p = some va)
    (hag : ∀ a ∈ va.2, h2[a]? = h1[a]?) : h2.readAudit p = some va := by
  obtain ⟨a, status, description, lastRun, resources, allocs, nodes, missing, r, al, nn, mn,
    rfl, ho, e1, e2, e3, e4, rfl⟩ := readAudit_inv h1 p va h
  apply readAudit_intro h2 a status description lastRun resources allocs nodes missing r al nn mn
  · rw [hag a (by simp), ho]
  · exact readNodeMap_congr h1 h2 _ r e1 (fun b hb => hag b (by simp [hb]))
  · exact readStrings_congr h1 h2 _ al e2 (fun b hb => hag b (by simp [hb]))
  · exact readStrings_congr h1 h2 _ nn e3 (fun b hb => hag b (by simp [hb]))
  · exact readStrings_congr h1 h2 _ mn e4 (fun b hb => hag b (by simp [hb]))

theorem readAudit_bound {F : Type} (h1 : Heap F) (p : Option Nat)
    (va : AllocationReconciliationAudit F × List Nat) (h : h1.readAudit p = some va) :
    ∀ a ∈ va.2, a < h1.length := by
  obtain ⟨a, status, description, lastRun, resources, allocs, nodes, missing, r, al, nn, mn,
    rfl, ho, e1, e2, e3, e4, rfl⟩ := readAudit_inv h1 p va h
  intro b hb
  simp only [List.mem_cons, List.mem_append] at hb
  rcases hb with hb | ((hb | hb) | hb) | hb
  · subst hb
    exact (List.getElem?_eq_some.1 ho).1
  · exact readNodeMap_bound h1 _ r e1 b hb
  · exact readStrings_bound h1 _ al e2 b hb
  · exact readStrings_bound h1 _ nn e3 b hb
  · exact readStrings_bound h1 _ mn e4 b hb

theorem readAuditSet_inv {F : Type} (h : Heap F) (s : Nat) (va : AuditSet F × List Nat)
    (a0 : AllocationReconciliationAudit F) (hr : h.readAuditSet s = some va)
    (hp : va.1.AllocationReconciliation = some a0) :
    ∃ ar window vaud, h[s]? = some (.auditSet (some ar) window) ∧
      h.readAudit (some ar) = some vaud ∧
      va = ({ AllocationReconciliation := some vaud.1, Window := window }, s :: vaud.2) := by
  simp only [Heap.readAuditSet] at hr
  cases ho : h[s]? with
  | none => simp [ho] at hr
  | some o =>
    cases o with
    | auditSet ar window =>
      cases ar with
      | none =>
        simp only [ho, Option.some.injEq] at hr
        subst hr
        simp at hp
      | some ar =>
        simp only [ho, Option.map_eq_some'] at hr
        obtain ⟨vaud, hv, rfl⟩ := hr
        exact ⟨ar, window, vaud, rfl, hv, rfl⟩
    | _ => simp [ho] at hr

theorem readAuditSet_intro {F : Type} (h : Heap F) (s ar : Nat) (window : Window)
    (vaud : AllocationReconciliationAudit F × List Nat)
    (ho : h[s]? = some (.auditSet (some ar) window)) (hv : h.readAudit (some ar) = some vaud) :
    h.readAuditSet s =
      some ({ AllocationReconciliation := some vaud.1, Window := window }, s :: vaud.2) := by
  simp [Heap.readAuditSet, ho, hv]

theorem readAuditSet_congr {F : Type} (h1 h2 : Heap F) (s : Nat) (va : AuditSet F × List Nat)
    (h : h1.readAuditSet s = some va) (hag : ∀ a ∈ va.2, h2[a]? = h1[a]?) :
    h2.readAuditSet s = some va := by
  simp only [Heap.readAuditSet] at h ⊢
  cases ho : h1[s]? with
  | none => simp [ho] at h
  | some o =>
    cases o with
    | auditSet ar window =>
      cases ar with
      | none =>
        simp only [ho, Option.some.injEq] at h
        subst h
        rw [hag s (by simp), ho]
      | some ar =>
        simp only [ho, Option.map_eq_some'] at h
        obtain ⟨vaud, hv, rfl⟩ := h
        rw [hag s (by simp), ho]
        simp only
        rw [readAudit_congr h1 h2 (some ar) vaud hv (fun b hb => hag b (by simp [hb]))]
        rfl
    | _ => simp [ho] at h

end kubecost

namespace kubecost

/-! ### The loops of `Clone` write only objects they made -/

theorem readFloat_inv {F : Type} (h : Heap F) (p : Option Nat)
    (va : AuditFloatResult F × List Nat) (hr : h.readFloat p = some va) :
    ∃ a, p = some a ∧ h[a]? = some (.floatResult va.1) ∧ va.2 = [a] := by
  cases p with
  | none => simp [Heap.readFloat] at hr
  | some a =>
    simp only [Heap.readFloat] at hr
    cases ho : h[a]? with
    | none => simp [ho] at hr
    | some o =>
      cases o <;> simp [ho] at hr
      subst hr
      exact ⟨a, rfl, ho, rfl⟩

theorem readFloat_intro {F : Type} (h : Heap F) (a : Nat) (r : AuditFloatResult F)
    (ho : h[a]? = some (.floatResult r)) : h.readFloat (some a) = some (r, [a]) := by
  simp [Heap.readFloat, ho]

theorem copyLoop_spec {F : Type} (n : Nat) (copy : Nat) (es : GoMap (Option Nat)) :
    ∀ (h : Heap F) (cm : GoMap (Option Nat))
      (vs vc : GoMap (AuditFloatResult F) × List Nat),
      n ≤ copy → h[copy]? = some (.resourceMap cm) →
      readEntries h.readFloat es = some vs → (∀ a ∈ vs.2, a < n) →
      readEntries h.readFloat cm = some vc → (∀ a ∈ vc.2, n ≤ a ∧ a ≠ copy) →
      ∃ h2 cm2 cas, AllocationReconciliationAudit.CloneAt.copyLoop copy es h = .returned h2 ∧
        h.length ≤ h2.length ∧
        (∀ a, a < h.length → a ≠ copy → h2[a]? = h[a]?) ∧
        h2[copy]? = some (.resourceMap cm2) ∧
        readEntries h2.readFloat cm2
          = some (vs.1.foldl (fun c rv => GoMap.set c rv.1 rv.2.Clone) vc.1, cas) ∧
        (∀ a ∈ cas, n ≤ a ∧ a ≠ copy) := by
  induction es with
  | nil =>
    intro h cm vs vc _ hcopy hsrc _ hcm hcas
    have : vs = ([], []) := by simpa [readEntries] using hsrc.symm
    subst this
    exact ⟨h, cm, vc.2, rfl, Nat.le_refl _, fun _ _ _ => rfl, hcopy, hcm, hcas⟩
  | cons kp rest ih =>
    intro h cm vs vc hn hcopy hsrc hsas hcm hcas
    obtain ⟨name, val⟩ := kp
    obtain ⟨va, vr, e1, e2, rfl⟩ := readEntries_cons h.readFloat name val rest vs hsrc
    obtain ⟨a, rfl, ho, hva⟩ := readFloat_inv h val va e1
    have hcl : copy < h.length := (List.getElem?_eq_some.1 hcopy).1
    have hne : h.length ≠ copy := Nat.ne_of_gt hcl
    -- the heap after the clone of the value and the write to the copy
    have hclone : AuditFloatResult.CloneAt h (some a)
        = .returned (some h.length, h ++ [.floatResult va.1.Clone]) := by
      simp [AuditFloatResult.CloneAt, ho, AuditFloatResult.Clone]
    have hc1 : (h ++ [Obj.floatResult va.1.Clone])[copy]? = some (.resourceMap cm) := by
      rw [List.getElem?_append_left hcl, hcopy]
    have hl1 : copy < (h ++ [Obj.floatResult va.1.Clone]).length := by
      simp only [List.length_append, List.length_singleton]; omega
    have hstep : AllocationReconciliationAudit.CloneAt.copyLoop copy ((name, some a) :: rest) h
        = AllocationReconciliationAudit.CloneAt.copyLoop copy rest
            ((h ++ [Obj.floatResult va.1.Clone]).set copy
              (.resourceMap (GoMap.set cm name (some h.length)))) := by
      simp only [AllocationReconciliationAudit.CloneAt.copyLoop, hclone, Outcome.bind, hc1]
    have fold : ∀ b, b < h.length → b ≠ copy →
        ((h ++ [Obj.floatResult va.1.Clone]).set copy
          (.resourceMap (GoMap.set cm name (some h.length))))[b]? = h[b]? := by
      intro b hb hbc
      rw [List.getElem?_set_ne (Ne.symm hbc), List.getElem?_append_left hb]
    have fnew : ((h ++ [Obj.floatResult va.1.Clone]).set copy
          (.resourceMap (GoMap.set cm name (some h.length))))[h.length]?
        = some (.floatResult va.1.Clone) := by
      rw [List.getElem?_set_ne (Ne.symm hne), List.getElem?_concat_length]
    have fcopy : ((h ++ [Obj.floatResult va.1.Clone]).set copy
          (.resourceMap (GoMap.set cm name (some h.length))))[copy]?
        = some (.resourceMap (GoMap.set cm name (some h.length))) :=
      List.getElem?_set_self hl1
    have flen : ((h ++ [Obj.floatResult va.1.Clone]).set copy
          (.resourceMap (GoMap.set cm name (some h.length)))).length = h.length + 1 := by
      simp
    -- the entries still to visit and the copy so far read as before
    have hrest := readEntries_congr h.readFloat
      (Heap.readFloat ((h ++ [Obj.floatResult va.1.Clone]).set copy
          (.resourceMap (GoMap.set cm name (some h.length)))))
      (fun b => b < h.length ∧ b ≠ copy)
      (fun p v hp hq => readFloat_congr h _ p v hp (fun b hb => fold b (hq b hb).1 (hq b hb).2))
      rest vr e2
      (fun b hb => by
        have := hsas b (List.mem_append_right _ hb)
        exact ⟨by omega, by omega⟩)
    have hcm2 := readEntries_congr h.readFloat
      (Heap.readFloat ((h ++ [Obj.floatResult va.1.Clone]).set copy
          (.resourceMap (GoMap.set cm name (some h.length)))))
      (fun b => b < h.length ∧ b ≠ copy)
      (fun p v hp hq => readFloat_congr h _ p v hp (fun b hb => fold b (hq b hb).1 (hq b hb).2))
      cm vc hcm
      (fun b hb => ⟨readEntries_bound h.readFloat (fun a => a < h.length)
          (fun p va hp => readFloat_bound h p va hp) cm vc hcm b hb, (hcas b hb).2⟩)
    obtain ⟨cs, hcs, hsub⟩ := readEntries_set _ cm name (some h.length) vc
      (va.1.Clone, [h.length]) hcm2 (readFloat_intro _ _ _ fnew)
    obtain ⟨h2, cm2, cas, r1, r2, r3, r4, r5, r6⟩ := ih _ (GoMap.set cm name (some h.length)) vr
      (GoMap.set vc.1 name va.1.Clone, cs) hn fcopy hrest
      (fun b hb => hsas b (List.mem_append_right _ hb)) hcs
      (fun b hb => by
        rcases hsub b hb with hb | hb
        · exact hcas b hb
        · have : b = h.length := by simpa using hb
          subst this
          exact ⟨by omega, hne⟩)
    refine ⟨h2, cm2, cas, hstep.trans r1, by omega, ?_, r4, ?_, r6⟩
    · intro b hb hbc
      rw [r3 b (by omega) hbc, fold b hb hbc]
    · simpa [List.foldl_cons] using r5

end kubecost

namespace kubecost

theorem resourceEntries_of_read {F : Type} (h : Heap F) (p : Option Nat)
    (va : GoMap (AuditFloatResult F) × List Nat) (hr : h.readResourceMap p = some va) :
    ∃ es ve, h.resourceEntries p = some es ∧ readEntries h.readFloat es = some ve ∧
      ve.1 = va.1 ∧ ∀ a ∈ ve.2, a ∈ va.2 := by
  cases p with
  | none =>
    have : va = ([], []) := by simpa [Heap.readResourceMap] using hr.symm
    subst this
    exact ⟨[], ([], []), rfl, rfl, rfl, fun _ h => h⟩
  | some a =>
    obtain ⟨es, ve, ho, he, rfl⟩ := readResourceMap_inv h a va hr
    exact ⟨es, ve, by simp [Heap.resourceEntries, ho], he, rfl,
      fun b hb => List.mem_cons_of_mem _ hb⟩

theorem nodeEntries_of_read {F : Type} (h : Heap F) (p : Option Nat)
    (va : GoMap (GoMap (AuditFloatResult F)) × List Nat) (hr : h.readNodeMap p = some va) :
    ∃ es ve, h.nodeEntries p = some es ∧ readEntries h.readResourceMap es = some ve ∧
      ve.1 = va.1 ∧ ∀ a ∈ ve.2, a ∈ va.2 := by
  cases p with
  | none =>
    have : va = ([], []) := by simpa [Heap.readNodeMap] using hr.symm
    subst this
    exact ⟨[], ([], []), rfl, rfl, rfl, fun _ h => h⟩
  | some a =>
    obtain ⟨es, ve, ho, he, rfl⟩ := readNodeMap_inv h a va hr
    exact ⟨es, ve, by simp [Heap.nodeEntries, ho], he, rfl,
      fun b hb => List.mem_cons_of_mem _ hb⟩

theorem nodeLoop_spec {F : Type} (n : Nat) (res : Nat) (src : GoMap (Option Nat)) :
    ∀ (h : Heap F) (nm : GoMap (Option Nat))
      (vs vn : GoMap (GoMap (AuditFloatResult F)) × List Nat),
      n ≤ res → h[res]? = some (.nodeMap nm) →
      readEntries h.readResourceMap src = some vs → (∀ a ∈ vs.2, a < n) →
      readEntries h.readResourceMap nm = some vn → (∀ a ∈ vn.2, n ≤ a ∧ a ≠ res) →
      ∃ h2 nm2 nas, AllocationReconciliationAudit.CloneAt.nodeLoop res src h = .returned h2 ∧
        h.length ≤ h2.length ∧
        (∀ a, a < h.length → a ≠ res → h2[a]? = h[a]?) ∧
        h2[res]? = some (.nodeMap nm2) ∧
        readEntries h2.readResourceMap nm2
          = some (vs.1.foldl (fun c nr => GoMap.set c nr.1
              (AllocationReconciliationAudit.Clone.copyResourceMap nr.2)) vn.1, nas) ∧
        (∀ a ∈ nas, n ≤ a ∧ a ≠ res) := by
  induction src with
  | nil =>
    intro h nm vs vn _ hres hsrc _ hnm hnas
    have : vs = ([], []) := by simpa [readEntries] using hsrc.symm
    subst this
    exact ⟨h, nm, vn.2, rfl, Nat.le_refl _, fun _ _ _ => rfl, hres, hnm, hnas⟩
  | cons kp rest ih =>
    intro h nm vs vn hn hres hsrc hsas hnm hnas
    obtain ⟨node, rm⟩ := kp
    obtain ⟨va, vr, e1, e2, rfl⟩ := readEntries_cons h.readResourceMap node rm rest vs hsrc
    obtain ⟨es, ve, hes, hve, hve1, hve2⟩ := resourceEntries_of_read h rm va e1
    have hrl : res < h.length := (List.getElem?_eq_some.1 hres).1
    have hva : ∀ b ∈ va.2, b < n := fun b hb => hsas b (List.mem_append_left _ hb)
    have hvr : ∀ b ∈ vr.2, b < n := fun b hb => hsas b (List.mem_append_right _ hb)
    -- the inner loop on the heap with the new, empty copy at address `h.length`
    have hA : readEntries (Heap.readFloat (h ++ [Obj.resourceMap []])) es = some ve :=
      readEntries_congr h.readFloat _ (fun b => b < h.length)
        (fun p v hp hq => readFloat_congr h _ p v hp
          (fun b hb => List.getElem?_append_left (hq b hb)))
        es ve hve (fun b hb => by have := hva b (hve2 b hb); omega)
    obtain ⟨hB, cm2, cas, c1, c2, c3, c4, c5, c6⟩ :=
      copyLoop_spec h.length h.length es (h ++ [Obj.resourceMap []]) [] ve ([], [])
        (Nat.le_refl _) (List.getElem?_concat_length h _) hA
        (fun b hb => by have := hva b (hve2 b hb); omega) rfl (by simp)
    have c2' : h.length + 1 ≤ hB.length := by simpa using c2
    have hBres : hB[res]? = some (.nodeMap nm) := by
      rw [c3 res (by simp; omega) (by omega), List.getElem?_append_left hrl, hres]
    have hBcopy : hB.readResourceMap (some h.length)
        = some (AllocationReconciliationAudit.Clone.copyResourceMap va.1, h.length :: cas) := by
      have := readResourceMap_intro hB h.length cm2 _ c4 c5
      simpa [AllocationReconciliationAudit.Clone.copyResourceMap, hve1] using this
    have hstep : AllocationReconciliationAudit.CloneAt.nodeLoop res ((node, rm) :: rest) h
        = AllocationReconciliationAudit.CloneAt.nodeLoop res rest
            (hB.set res (.nodeMap (GoMap.set nm node (some h.length)))) := by
      simp only [AllocationReconciliationAudit.CloneAt.nodeLoop, hes, c1, Outcome.bind, hBres]
    have fold : ∀ b, b < h.length → b ≠ res →
        (hB.set res (Obj.nodeMap (GoMap.set nm node (some h.length))))[b]? = h[b]? := by
      intro b hb hbr
      rw [List.getElem?_set_ne (Ne.symm hbr), c3 b (by simp; omega) (by omega),
        List.getElem?_append_left hb]
    have fres : (hB.set res (Obj.nodeMap (GoMap.set nm node (some h.length))))[res]?
        = some (.nodeMap (GoMap.set nm node (some h.length))) :=
      List.getElem?_set_self (by omega)
    have hrest := readEntries_congr h.readResourceMap
      (Heap.readResourceMap (hB.set res (Obj.nodeMap (GoMap.set nm node (some h.length)))))
      (fun b => b < h.length ∧ b ≠ res)
      (fun p v hp hq => readResourceMap_congr h _ p v hp
        (fun b hb => fold b (hq b hb).1 (hq b hb).2))
      rest vr e2 (fun b hb => by have := hvr b hb; exact ⟨by omega, by omega⟩)
    have hnm2 := readEntries_congr h.readResourceMap
      (Heap.readResourceMap (hB.set res (Obj.nodeMap (GoMap.set nm node (some h.length)))))
      (fun b => b < h.length ∧ b ≠ res)
      (fun p v hp hq => readResourceMap_congr h _ p v hp
        (fun b hb => fold b (hq b hb).1 (hq b hb).2))
      nm vn hnm
      (fun b hb => ⟨readEntries_bound h.readResourceMap (fun a => a < h.length)
          (fun p va hp => readResourceMap_bound h p va hp) nm vn hnm b hb, (hnas b hb).2⟩)
    have hnew : Heap.readResourceMap
        (hB.set res (Obj.nodeMap (GoMap.set nm node (some h.length)))) (some h.length)
        = some (AllocationReconciliationAudit.Clone.copyResourceMap va.1, h.length :: cas) :=
      readResourceMap_congr hB _ _ _ hBcopy (fun b hb => by
        have hbr : b ≠ res := by
          rcases List.mem_cons.1 hb with hb | hb
          · omega
          · have := c6 b hb; omega
        exact List.getElem?_set_ne (Ne.symm hbr))
    obtain ⟨cs, hcs, hsub⟩ := readEntries_set _ nm node (some h.length) vn _ hnm2 hnew
    obtain ⟨h2, nm2, nas, r1, r2, r3, r4, r5, r6⟩ := ih _ (GoMap.set nm node (some h.length)) vr
      (GoMap.set vn.1 node (AllocationReconciliationAudit.Clone.copyResourceMap va.1), cs)
      hn fres hrest hvr hcs
      (fun b hb => by
        rcases hsub b hb with hb | hb
        · exact hnas b hb
        · rcases List.mem_cons.1 hb with hb | hb
          · omega
          · have := c6 b hb; omega)
    have hlen : (hB.set res (Obj.nodeMap (GoMap.set nm node (some h.length)))).length
        = hB.length := by simp
    refine ⟨h2, nm2, nas, hstep.trans r1, by omega, ?_, r4, ?_, r6⟩
    · intro b hb hbr
      rw [r3 b (by omega) hbr, fold b hb hbr]
    · simpa [List.foldl_cons] using r5

end kubecost

namespace kubecost

/-! ### `Clone` returns a copy made of new objects only -/

theorem readNodeMap_ext {F : Type} (h h2 : Heap F) (p : Option Nat)
    (va : GoMap (GoMap (AuditFloatResult F)) × List Nat) (hr : h.readNodeMap p = some va)
    (hext : ∀ a, a < h.length → h2[a]? = h[a]?) : h2.readNodeMap p = some va :=
  readNodeMap_congr h h2 p va hr (fun a ha => hext a (readNodeMap_bound h p va hr a ha))

theorem readStrings_ext {F : Type} (h h2 : Heap F) (p : Option Nat)
    (va : List String × List Nat) (hr : h.readStrings p = some va)
    (hext : ∀ a, a < h.length → h2[a]? = h[a]?) : h2.readStrings p = some va :=
  readStrings_congr h h2 p va hr (fun a ha => hext a (readStrings_bound h p va hr a ha))

theorem slicesCloneAt_spec {F : Type} (h0 h : Heap F) (p : Option Nat)
    (v : List String × List Nat) (hr : h0.readStrings p = some v)
    (hext : ∀ a, a < h0.length → h[a]? = h0[a]?) :
    ∃ q h2 cas, slicesCloneAt h p = .returned (q, h2) ∧ h.length ≤ h2.length ∧
      (∀ a, a < h.length → h2[a]? = h[a]?) ∧
      h2.readStrings q = some (slicesClone v.1, cas) ∧ (∀ a ∈ cas, h.length ≤ a) := by
  rw [slicesClone_eq]
  cases p with
  | none =>
    have : v = ([], []) := by simpa [Heap.readStrings] using hr.symm
    subst this
    exact ⟨none, h, [], rfl, Nat.le_refl _, fun _ _ => rfl, rfl, by simp⟩
  | some a =>
    simp only [Heap.readStrings] at hr
    cases ho : h0[a]? with
    | none => simp [ho] at hr
    | some o =>
      cases o <;> simp [ho] at hr
      rename_i xs
      subst hr
      have ha : a < h0.length := (List.getElem?_eq_some.1 ho).1
      have ho2 : h[a]? = some (.strings xs) := by rw [hext a ha, ho]
      refine ⟨some h.length, h ++ [.strings xs], [h.length], ?_, by simp, ?_, ?_, by simp⟩
      · simp [slicesCloneAt, ho2]
      · intro b hb
        exact List.getElem?_append_left hb
      · simp [Heap.readStrings, List.getElem?_concat_length]

theorem audit_CloneAt_spec {F : Type} (h : Heap F) (p : Option Nat)
    (va : AllocationReconciliationAudit F × List Nat) (hr : h.readAudit p = some va) :
    ∃ q h2 va2, AllocationReconciliationAudit.CloneAt h p = .returned (some q, h2) ∧
      h.length ≤ h2.length ∧ (∀ a, a < h.length → h2[a]? = h[a]?) ∧
      h2.readAudit (some q) = some va2 ∧
      AllocationReconciliationAudit.Clone (some va.1) = .returned (some va2.1) ∧
      (∀ a ∈ va2.2, h.length ≤ a) := by
  obtain ⟨a, status, description, lastRun, resources, allocs, nodes, missing, r, al, nn, mn,
    rfl, ho, e1, e2, e3, e4, rfl⟩ := readAudit_inv h p va hr
  obtain ⟨ns, ve, hns, hve, hve1, hve2⟩ := nodeEntries_of_read h resources r e1
  have hrb := readNodeMap_bound h resources r e1
  -- the outer loop on the heap with the new, empty map at address `h.length`
  have hA : readEntries (Heap.readResourceMap (h ++ [Obj.nodeMap []])) ns = some ve :=
    readEntries_congr h.readResourceMap _ (fun b => b < h.length)
      (fun p v hp hq => readResourceMap_congr h _ p v hp
        (fun b hb => List.getElem?_append_left (hq b hb)))
      ns ve hve (fun b hb => hrb b (hve2 b hb))
  obtain ⟨h1, nm2, nas, c1, c2, c3, c4, c5, c6⟩ :=
    nodeLoop_spec h.length h.length ns (h ++ [Obj.nodeMap []]) [] ve ([], [])
      (Nat.le_refl _) (List.getElem?_concat_length h _) hA
      (fun b hb => hrb b (hve2 b hb)) rfl (by simp)
  have c2' : h.length + 1 ≤ h1.length := by simpa using c2
  have x1 : ∀ b, b < h.length → h1[b]? = h[b]? := fun b hb => by
    rw [c3 b (by simp; omega) (by omega), List.getElem?_append_left hb]
  have hres1 := readNodeMap_intro h1 h.length nm2 _ c4 c5
  -- the three slices
  obtain ⟨q2, h2, as2, s1, s2, s3, s4, s5⟩ := slicesCloneAt_spec h h1 allocs al e2 x1
  have x2 : ∀ b, b < h.length → h2[b]? = h[b]? := fun b hb => by
    rw [s3 b (by omega), x1 b hb]
  obtain ⟨q3, h3, as3, t1, t2, t3, t4, t5⟩ := slicesCloneAt_spec h h2 nodes nn e3 x2
  have x3 : ∀ b, b < h.length → h3[b]? = h[b]? := fun b hb => by
    rw [t3 b (by omega), x2 b hb]
  obtain ⟨q4, h4, as4, u1, u2, u3, u4, u5⟩ := slicesCloneAt_spec h h3 missing mn e4 x3
  have x4 : ∀ b, b < h.length → h4[b]? = h[b]? := fun b hb => by
    rw [u3 b (by omega), x3 b hb]
  have hcall : AllocationReconciliationAudit.CloneAt h (some a)
      = .returned (some h4.length,
          h4 ++ [.audit status description lastRun (some h.length) q2 q3 q4]) := by
    simp only [AllocationReconciliationAudit.CloneAt, ho, hns, c1, Outcome.bind, s1, t1, u1]
  have y4 : ∀ b, b < h4.length →
      (h4 ++ [Obj.audit status description lastRun (some h.length) q2 q3 q4])[b]? = h4[b]? :=
    fun b hb => List.getElem?_append_left hb
  have y3 : ∀ b, b < h3.length →
      (h4 ++ [Obj.audit status description lastRun (some h.length) q2 q3 q4])[b]? = h3[b]? :=
    fun b hb => by rw [y4 b (by omega), u3 b hb]
  have y2 : ∀ b, b < h2.length →
      (h4 ++ [Obj.audit status description lastRun (some h.length) q2 q3 q4])[b]? = h2[b]? :=
    fun b hb => by rw [y3 b (by omega), t3 b hb]
  have y1 : ∀ b, b < h1.length →
      (h4 ++ [Obj.audit status description lastRun (some h.length) q2 q3 q4])[b]? = h1[b]? :=
    fun b hb => by rw [y2 b (by omega), s3 b hb]
  have hfinal := readAudit_intro
    (h4 ++ [Obj.audit status description lastRun (some h.length) q2 q3 q4]) h4.length
    status description lastRun (some h.length) q2 q3 q4 _ _ _ _
    (List.getElem?_concat_length h4 _)
    (readNodeMap_ext h1 _ _ _ hres1 y1) (readStrings_ext h2 _ _ _ s4 y2)
    (readStrings_ext h3 _ _ _ t4 y3) (readStrings_ext h4 _ _ _ u4 y4)
  refine ⟨h4.length, _, _, hcall, by simp; omega, ?_, hfinal, ?_, ?_⟩
  · intro b hb
    rw [y4 b (by omega), x4 b hb]
  · simp only [AllocationReconciliationAudit.Clone, hve1]
  · intro b hb
    simp only [List.mem_cons, List.mem_append] at hb
    rcases hb with hb | (((hb | hb) | hb) | hb) | hb
    · omega
    · omega
    · have := c6 b hb; omega
    · have := s5 b hb; omega
    · have := t5 b hb; omega
    · have := u5 b hb; omega

end kubecost

namespace kubecost

theorem readAuditSet_bound {F : Type} (h : Heap F) (s : Nat) (va : AuditSet F × List Nat)
    (a0 : AllocationReconciliationAudit F) (hr : h.readAuditSet s = some va)
    (hp : va.1.AllocationReconciliation = some a0) : ∀ a ∈ va.2, a < h.length := by
  obtain ⟨ar, window, vaud, ho, hv, rfl⟩ := readAuditSet_inv h s va a0 hr hp
  intro b hb
  rcases List.mem_cons.1 hb with hb | hb
  · subst hb
    exact (List.getElem?_eq_some.1 ho).1
  · exact readAudit_bound h _ vaud hv b hb

/-- C16: let `s` be the address of an AuditSet of content `v` that holds an
AllocationReconciliation audit, `sas` the addresses of the objects it is made
of (the structs, the node map, the resource maps, the `AuditFloatResult`s and
the arrays of the anomaly lists). `Clone` returns the address `c` of an
AuditSet of the content of the clone, made of objects `cas` none of which is an
object of the original. The content read at `c`, every field down to the
entries of the nested maps and the elements of the lists, is the same in every
heap that keeps the objects `cas`, so after any writes to objects of the
original; and the content read at `s` is the same after any writes to objects
of the clone. -/
theorem AuditSet.CloneAt_isolated {F : Type} (h : Heap F) (s : Nat) (v : AuditSet F)
    (sas : List Nat) (a0 : AllocationReconciliationAudit F)
    (hread : h.readAuditSet s = some (v, sas)) (hpresent : v.AllocationReconciliation = some a0) :
    ∃ c h2 v2 cas, AuditSet.CloneAt h (some s) = .returned (some c, h2) ∧
      AuditSet.Clone (some v) = .returned (some v2) ∧
      h2.readAuditSet c = some (v2, cas) ∧ h2.readAuditSet s = some (v, sas) ∧
      (∀ a ∈ sas, a ∉ cas) ∧
      (∀ h3 : Heap F, (∀ a ∈ cas, h3[a]? = h2[a]?) → h3.readAuditSet c = some (v2, cas)) ∧
      (∀ h3 : Heap F, (∀ a ∈ sas, h3[a]? = h2[a]?) → h3.readAuditSet s = some (v, sas)) ∧
      (∀ p ∈ sas, ∀ o, (h2.write p o).readAuditSet c = some (v2, cas)) ∧
      (∀ p ∈ cas, ∀ o, (h2.write p o).readAuditSet s = some (v, sas)) := by
  have hsb := readAuditSet_bound h s (v, sas) a0 hread hpresent
  obtain ⟨ar, window, vaud, ho, hv, hva⟩ := readAuditSet_inv h s (v, sas) a0 hread hpresent
  obtain ⟨q, h1, va2, k1, k2, k3, k4, k5, k6⟩ := audit_CloneAt_spec h (some ar) vaud hv
  have hv1 : v = { AllocationReconciliation := some vaud.1, Window := window } :=
    (Prod.mk.inj hva).1
  have hcall : AuditSet.CloneAt h (some s)
      = .returned (some h1.length, h1 ++ [.auditSet (some q) window.Clone]) := by
    simp only [AuditSet.CloneAt, ho, k1, Outcome.bind]
  have hval : AuditSet.Clone (some v)
      = .returned (some { AllocationReconciliation := some va2.1, Window := window.Clone }) := by
    rw [hv1]
    simp only [AuditSet.Clone, k5]
  have y1 : ∀ b, b < h1.length →
      (h1 ++ [Obj.auditSet (some q) window.Clone])[b]? = h1[b]? :=
    fun b hb => List.getElem?_append_left hb
  have hc : Heap.readAuditSet (h1 ++ [Obj.auditSet (some q) window.Clone]) h1.length
      = some ({ AllocationReconciliation := some va2.1, Window := window.Clone },
          h1.length :: va2.2) :=
    readAuditSet_intro _ h1.length q window.Clone va2 (List.getElem?_concat_length h1 _)
      (readAudit_congr h1 _ _ va2 k4 (fun b hb => y1 b (readAudit_bound h1 _ va2 k4 b hb)))
  have hs : Heap.readAuditSet (h1 ++ [Obj.auditSet (some q) window.Clone]) s
      = some (v, sas) :=
    readAuditSet_congr h _ s (v, sas) hread (fun b hb => by
      have := hsb b hb
      rw [y1 b (by omega), k3 b this])
  have hdisj : ∀ a ∈ sas, a ∉ h1.length :: va2.2 := by
    intro a ha hin
    have h1' := hsb a ha
    rcases List.mem_cons.1 hin with hin | hin
    · omega
    · have := k6 a hin; omega
  refine ⟨h1.length, _, _, h1.length :: va2.2, hcall, hval, hc, hs, hdisj, ?_, ?_, ?_, ?_⟩
  · intro h3 hag
    exact readAuditSet_congr _ h3 _ _ hc hag
  · intro h3 hag
    exact readAuditSet_congr _ h3 _ _ hs hag
  · intro p hp o
    apply readAuditSet_congr _ _ _ _ hc
    intro b hb
    have hne : p ≠ b := fun e => hdisj p hp (e ▸ hb)
    exact List.getElem?_set_ne hne
  · intro p hp o
    apply readAuditSet_congr _ _ _ _ hs
    intro b hb
    have hne : p ≠ b := fun e => hdisj b hb (e ▸ hp)
    exact List.getElem?_set_ne hne

/-- Witness of C16 on the example heap, whose AuditSet at address 5 has the
content of the example receiver: after `Clone`, replacing the `cpu` resource
map of the original (address 1) by an empty map, or changing the
`AuditFloatResult` of the original (address 0), leaves the content of the
clone the one of the example receiver. -/
theorem AuditSet.CloneAt_isolated_witness :
    ∃ c h2 cas, AuditSet.CloneAt exampleHeap (some 5) = .returned (some c, h2) ∧
      h2.readAuditSet c = some (exampleReceiver, cas) ∧
      (h2.write 1 (.resourceMap [])).readAuditSet c = some (exampleReceiver, cas) ∧
      (h2.write 0 (.floatResult { Expected := 9, Actual := 9 })).readAuditSet c
        = some (exampleReceiver, cas) := by
  obtain ⟨c, h2, v2, cas, r1, r2, r3, _, _, _, _, r8, _⟩ :=
    AuditSet.CloneAt_isolated exampleHeap 5 exampleReceiver [5, 4, 2, 1, 0, 3] exampleFailed
      (by decide) rfl
  have hv : v2 = exampleReceiver := by
    have h0 : AuditSet.Clone (some exampleReceiver) = .returned (some exampleReceiver) := by
      decide
    rw [h0] at r2
    injection r2 with r2
    injection r2 with r2
    exact r2.symm
  subst hv
  exact ⟨c, h2, cas, r1, r3, r8 1 (by simp) _, r8 0 (by simp) _⟩

end kubecost
